import Mathlib

/-!
Verification development for the import-path rewriter
(`scripts/fix_all_imports.py`).

The script performs pattern-based string substitution over file contents.
We embed the text as `List Char` and each regex substitution pass as a
left-to-right scanner (`subst`) driven by a deterministic matcher for the
concrete pattern, mirroring Python `re.sub` semantics: leftmost
non-overlapping matches, replacements not rescanned, scanning resuming
after each replaced match.

Every pattern of the script begins with the literal `from `, so all
matchers are built through the wrapper `matchFrom`, which checks that
literal and delegates to a tail matcher for the rest of the pattern.
A tail matcher returns `(n, r)` where `n` is the number of characters the
match consumes beyond `from ` and `r` is the replacement text beyond
`from ` (all replacements of the script also start with `from `).
-/

namespace ImportFix

/-- Characters of the literal `from ` that opens every pattern. -/
def fromSp : List Char := ['f', 'r', 'o', 'm', ' ']

/-- Boolean prefix test on character lists. -/
def isPre : List Char → List Char → Bool
  | [], _ => true
  | _ :: _, [] => false
  | a :: as, b :: bs => a == b && isPre as bs

/-- The text `'../' * n`: `n` parent-directory hops. -/
def hopsL : Nat → List Char
  | 0 => []
  | n + 1 => '.' :: '.' :: '/' :: hopsL n

/-- Wrap a tail matcher into a full matcher requiring the `from ` literal. -/
def matchFrom (tm : List Char → Option (Nat × List Char)) (s : List Char) :
    Option (Nat × List Char) :=
  if isPre fromSp s then tm (s.drop 5) else none

/-- Fuelled scanner: replace every leftmost non-overlapping match. -/
def substF (tm : List Char → Option (Nat × List Char)) : Nat → List Char → List Char
  | _, [] => []
  | 0, s => s
  | f + 1, c :: cs =>
    match matchFrom tm (c :: cs) with
    | some (n, r) => fromSp ++ r ++ substF tm f (List.drop (n + 5) (c :: cs))
    | none => c :: substF tm f cs

/-- The `re.sub` of one pattern over a content: fuel `s.length` always suffices. -/
def subst (tm : List Char → Option (Nat × List Char)) (s : List Char) : List Char :=
  substF tm s.length s

/-- The `re.search` of one pattern: does any suffix position match? -/
def hasMatch (tm : List Char → Option (Nat × List Char)) (s : List Char) : Bool :=
  (List.tails s).any fun t => (matchFrom tm t).isSome

/-- Quote character class `['\"]` of the patterns. -/
def isQ (c : Char) : Bool := c == '\'' || c == '"'

/-! External-import rewriter (`fix_external_imports`).

Each of the six configured patterns is applied twice, exactly as in the
source: first with the `['\"]` quote class and the replacement's single
quotes turned into double quotes, then with a single-quote-only pattern
and the single-quoted replacement. -/

/-- Tail matcher for `['\"]` + a literal (the double-quote-replacement pass). -/
def extTailA (lit repl : List Char) : List Char → Option (Nat × List Char)
  | [] => none
  | q :: rest =>
    if isQ q && isPre lit rest then some (1 + lit.length, '"' :: repl) else none

/-- Tail matcher for `'` + a literal (the single-quote-replacement pass). -/
def extTailB (lit repl : List Char) : List Char → Option (Nat × List Char)
  | [] => none
  | q :: rest =>
    if q == '\'' && isPre lit rest then some (1 + lit.length, '\'' :: repl) else none

def tyR : List Char := ['t', 'y', 'p', 'e', 's', '/']
def woR : List Char := ['w', 'o', 'r', 'l', 'd', '/']
def shR : List Char := ['s', 'h', 'a', 'r', 'e', 'd', '/']
def inR : List Char := ['i', 'n', 'f', 'r', 'a', 's', 't', 'r', 'u', 'c', 't', 'u', 'r', 'e', '/']
def cfR : List Char := ['c', 'o', 'n', 'f', 'i', 'g', '/']
def coR : List Char := ['c', 'o', 'r', 'e', '/']

def nTimeSystem : List Char := ['T', 'i', 'm', 'e', 'S', 'y', 's', 't', 'e', 'm']
def nChunkLoadingSystem : List Char :=
  ['C', 'h', 'u', 'n', 'k', 'L', 'o', 'a', 'd', 'i', 'n', 'g', 'S', 'y', 's', 't', 'e', 'm']
def nTerrainSystem : List Char :=
  ['T', 'e', 'r', 'r', 'a', 'i', 'n', 'S', 'y', 's', 't', 'e', 'm']

/-- The negative lookahead `(?!TimeSystem|ChunkLoadingSystem|TerrainSystem)`. -/
def lookaheadBlocked (rest : List Char) : Bool :=
  isPre nTimeSystem rest || isPre nChunkLoadingSystem rest || isPre nTerrainSystem rest

/-- Tail matcher for the root-level `../core/` pattern (quote-class pass).
The captured group `\1` is always the text `core/`. -/
def extTailCoreA (d : Nat) : List Char → Option (Nat × List Char)
  | [] => none
  | q :: rest =>
    if isQ q && isPre (hopsL 1 ++ coR) rest && !lookaheadBlocked (rest.drop 8)
    then some (1 + 8, '"' :: (hopsL (d + 1) ++ coR)) else none

/-- Tail matcher for the root-level `../core/` pattern (single-quote pass). -/
def extTailCoreB (d : Nat) : List Char → Option (Nat × List Char)
  | [] => none
  | q :: rest =>
    if q == '\'' && isPre (hopsL 1 ++ coR) rest && !lookaheadBlocked (rest.drop 8)
    then some (1 + 8, '\'' :: (hopsL (d + 1) ++ coR)) else none

/-- The twelve substitution passes of `fix_external_imports`, in source order. -/
def extPassList (d : Nat) : List (List Char → Option (Nat × List Char)) :=
  [ extTailA (hopsL 2 ++ tyR) (hopsL (d + 2) ++ tyR),
    extTailB (hopsL 2 ++ tyR) (hopsL (d + 2) ++ tyR),
    extTailA (hopsL 2 ++ woR) (hopsL (d + 2) ++ woR),
    extTailB (hopsL 2 ++ woR) (hopsL (d + 2) ++ woR),
    extTailA (hopsL 3 ++ shR) (hopsL (d + 3) ++ shR),
    extTailB (hopsL 3 ++ shR) (hopsL (d + 3) ++ shR),
    extTailA (hopsL 3 ++ inR) (hopsL (d + 3) ++ inR),
    extTailB (hopsL 3 ++ inR) (hopsL (d + 3) ++ inR),
    extTailA (hopsL 3 ++ cfR) (hopsL (d + 3) ++ cfR),
    extTailB (hopsL 3 ++ cfR) (hopsL (d + 3) ++ cfR),
    extTailCoreA d,
    extTailCoreB d ]

/-- Sequential application of substitution passes. -/
def applyPasses (ps : List (List Char → Option (Nat × List Char))) (c : List Char) :
    List Char :=
  ps.foldl (fun c p => subst p c) c

/-- Embedding of `fix_external_imports(content, depth)`. -/
def fix_external_imports (depth : Nat) (content : List Char) : List Char :=
  applyPasses (extPassList depth) content

/-! Cross-system rewriter (`fix_cross_system_imports`). -/

/-- Character class `[\w/]` (word character or slash). -/
def wordSlash (c : Char) : Bool := c.isAlphanum || c == '_' || c == '/'

/-- Length of the longest `[\w/]` run at the head of the text. -/
def wsRun : List Char → Nat
  | [] => 0
  | c :: cs => if wordSlash c then wsRun cs + 1 else 0

/-- Does the text start with the identifier `N` followed by a quote? -/
def qAfter (N rest : List Char) : Bool :=
  isPre N rest &&
    (match rest.drop N.length with
     | q :: _ => isQ q
     | [] => false)

/-- Greedy match of the optional group `([\w/]+/)?` before `N` and a quote:
the longest group (a `[\w/]` run of length at least one, then `/`) after
which `N` and a closing quote follow, as Python backtracking chooses it. -/
def groupLen (N rest : List Char) : Option Nat :=
  (List.range (wsRun rest + 1)).reverse.find? fun g =>
    decide (2 ≤ g) && (rest.getD (g - 1) ' ' == '/') && qAfter N (rest.drop g)

/-- Tail matcher for `from ['\"]\./(N)['\"]`. -/
def crossTail1 (N rel : List Char) : List Char → Option (Nat × List Char)
  | q :: '.' :: '/' :: rest =>
    if isQ q && qAfter N rest then some (4 + N.length, '"' :: (rel ++ ['"'])) else none
  | _ => none

/-- Tail matcher for `from ['\"]\.\./N['\"]`. -/
def crossTail2 (N rel : List Char) : List Char → Option (Nat × List Char)
  | q :: '.' :: '.' :: '/' :: rest =>
    if isQ q && qAfter N rest then some (5 + N.length, '"' :: (rel ++ ['"'])) else none
  | _ => none

/-- Tail matcher for `from ['\"]\./([\w/]+/)?N['\"]`. -/
def crossTail3 (N rel : List Char) : List Char → Option (Nat × List Char)
  | q :: '.' :: '/' :: rest =>
    if isQ q then
      match groupLen N rest with
      | some g => some (4 + g + N.length, '"' :: (rel ++ ['"']))
      | none =>
        if qAfter N rest then some (4 + N.length, '"' :: (rel ++ ['"'])) else none
    else none
  | _ => none

/-- One guarded substitution: `if re.search(p, content): re.sub(p, r, content)`. -/
def applyPat (tm : List Char → Option (Nat × List Char)) (content : List Char) :
    List Char :=
  if hasMatch tm content then subst tm content else content

/-- The relative-path computation of `fix_cross_system_imports` (lines 103
and 117-124 of the source): `target_folder = new_location.split('/')[0]`,
then same-folder shortcut or `'../' * depth + target_path`. -/
def relPathFor (folder : List Char) (depth : Nat) (N loc : List Char) : List Char :=
  let tf := loc.takeWhile fun c => !(c == '/')
  if folder == tf then '.' :: '/' :: N else hopsL depth ++ loc

/-- The inner loop body of `fix_cross_system_imports` for one relocation
entry: the three patterns in source order, each guarded by a search. -/
def applySystem (folder : List Char) (depth : Nat) (N loc content : List Char) :
    List Char :=
  let rel := relPathFor folder depth N loc
  applyPat (crossTail3 N rel)
    (applyPat (crossTail2 N rel) (applyPat (crossTail1 N rel) content))

def fAgents : List Char := ['a', 'g', 'e', 'n', 't', 's']
def fWorld : List Char := ['w', 'o', 'r', 'l', 'd']
def fSocial : List Char := ['s', 'o', 'c', 'i', 'a', 'l']
def fEconomy : List Char := ['e', 'c', 'o', 'n', 'o', 'm', 'y']
def fConflict : List Char := ['c', 'o', 'n', 'f', 'l', 'i', 'c', 't']
def fStructures : List Char := ['s', 't', 'r', 'u', 'c', 't', 'u', 'r', 'e', 's']
def fLifecycle : List Char := ['l', 'i', 'f', 'e', 'c', 'y', 'c', 'l', 'e']
def fObjectives : List Char := ['o', 'b', 'j', 'e', 'c', 't', 'i', 'v', 'e', 's']
def fCore : List Char := ['c', 'o', 'r', 'e']

def dNeeds : List Char := ['n', 'e', 'e', 'd', 's', '/']
def dMovement : List Char := ['m', 'o', 'v', 'e', 'm', 'e', 'n', 't', '/']
def dAi : List Char := ['a', 'i', '/']
def dAnimals : List Char := ['a', 'n', 'i', 'm', 'a', 'l', 's', '/']

def nInventorySystem : List Char :=
  ['I', 'n', 'v', 'e', 'n', 't', 'o', 'r', 'y', 'S', 'y', 's', 't', 'e', 'm']
def nEconomySystem : List Char :=
  ['E', 'c', 'o', 'n', 'o', 'm', 'y', 'S', 'y', 's', 't', 'e', 'm']
def nEnhancedCraftingSystem : List Char :=
  ['E', 'n', 'h', 'a', 'n', 'c', 'e', 'd', 'C', 'r', 'a', 'f', 't', 'i', 'n', 'g',
   'S', 'y', 's', 't', 'e', 'm']
def nRecipeDiscoverySystem : List Char :=
  ['R', 'e', 'c', 'i', 'p', 'e', 'D', 'i', 's', 'c', 'o', 'v', 'e', 'r', 'y',
   'S', 'y', 's', 't', 'e', 'm']
def nResourceReservationSystem : List Char :=
  ['R', 'e', 's', 'o', 'u', 'r', 'c', 'e', 'R', 'e', 's', 'e', 'r', 'v', 'a', 't',
   'i', 'o', 'n', 'S', 'y', 's', 't', 'e', 'm']
def nSocialSystem : List Char :=
  ['S', 'o', 'c', 'i', 'a', 'l', 'S', 'y', 's', 't', 'e', 'm']
def nMarriageSystem : List Char :=
  ['M', 'a', 'r', 'r', 'i', 'a', 'g', 'e', 'S', 'y', 's', 't', 'e', 'm']
def nHouseholdSystem : List Char :=
  ['H', 'o', 'u', 's', 'e', 'h', 'o', 'l', 'd', 'S', 'y', 's', 't', 'e', 'm']
def nReputationSystem : List Char :=
  ['R', 'e', 'p', 'u', 't', 'a', 't', 'i', 'o', 'n', 'S', 'y', 's', 't', 'e', 'm']
def nGenealogySystem : List Char :=
  ['G', 'e', 'n', 'e', 'a', 'l', 'o', 'g', 'y', 'S', 'y', 's', 't', 'e', 'm']
def nWorldResourceSystem : List Char :=
  ['W', 'o', 'r', 'l', 'd', 'R', 'e', 's', 'o', 'u', 'r', 'c', 'e',
   'S', 'y', 's', 't', 'e', 'm']
def nItemGenerationSystem : List Char :=
  ['I', 't', 'e', 'm', 'G', 'e', 'n', 'e', 'r', 'a', 't', 'i', 'o', 'n',
   'S', 'y', 's', 't', 'e', 'm']
def nProductionSystem : List Char :=
  ['P', 'r', 'o', 'd', 'u', 'c', 't', 'i', 'o', 'n', 'S', 'y', 's', 't', 'e', 'm']
def nCombatSystem : List Char :=
  ['C', 'o', 'm', 'b', 'a', 't', 'S', 'y', 's', 't', 'e', 'm']
def nConflictResolutionSystem : List Char :=
  ['C', 'o', 'n', 'f', 'l', 'i', 'c', 't', 'R', 'e', 's', 'o', 'l', 'u', 't',
   'i', 'o', 'n', 'S', 'y', 's', 't', 'e', 'm']
def nBuildingSystem : List Char :=
  ['B', 'u', 'i', 'l', 'd', 'i', 'n', 'g', 'S', 'y', 's', 't', 'e', 'm']
def nGovernanceSystem : List Char :=
  ['G', 'o', 'v', 'e', 'r', 'n', 'a', 'n', 'c', 'e', 'S', 'y', 's', 't', 'e', 'm']
def nLifeCycleSystem : List Char :=
  ['L', 'i', 'f', 'e', 'C', 'y', 'c', 'l', 'e', 'S', 'y', 's', 't', 'e', 'm']
def nTaskSystem : List Char := ['T', 'a', 's', 'k', 'S', 'y', 's', 't', 'e', 'm']
def nAISystem : List Char := ['A', 'I', 'S', 'y', 's', 't', 'e', 'm']
def nRoleSystem : List Char := ['R', 'o', 'l', 'e', 'S', 'y', 's', 't', 'e', 'm']
def nEquipmentSystem : List Char :=
  ['E', 'q', 'u', 'i', 'p', 'm', 'e', 'n', 't', 'S', 'y', 's', 't', 'e', 'm']
def nAmbientAwarenessSystem : List Char :=
  ['A', 'm', 'b', 'i', 'e', 'n', 't', 'A', 'w', 'a', 'r', 'e', 'n', 'e', 's', 's',
   'S', 'y', 's', 't', 'e', 'm']
def nNeedsSystem : List Char :=
  ['N', 'e', 'e', 'd', 's', 'S', 'y', 's', 't', 'e', 'm']
def nNeedsBatchProcessor : List Char :=
  ['N', 'e', 'e', 'd', 's', 'B', 'a', 't', 'c', 'h', 'P', 'r', 'o', 'c', 'e', 's',
   's', 'o', 'r']
def nMovementSystem : List Char :=
  ['M', 'o', 'v', 'e', 'm', 'e', 'n', 't', 'S', 'y', 's', 't', 'e', 'm']
def nMovementBatchProcessor : List Char :=
  ['M', 'o', 'v', 'e', 'm', 'e', 'n', 't', 'B', 'a', 't', 'c', 'h', 'P', 'r', 'o',
   'c', 'e', 's', 's', 'o', 'r']
def nSharedKnowledgeSystem : List Char :=
  ['S', 'h', 'a', 'r', 'e', 'd', 'K', 'n', 'o', 'w', 'l', 'e', 'd', 'g', 'e',
   'S', 'y', 's', 't', 'e', 'm']
def nAnimalSystem : List Char :=
  ['A', 'n', 'i', 'm', 'a', 'l', 'S', 'y', 's', 't', 'e', 'm']
def nAnimalBatchProcessor : List Char :=
  ['A', 'n', 'i', 'm', 'a', 'l', 'B', 'a', 't', 'c', 'h', 'P', 'r', 'o', 'c', 'e',
   's', 's', 'o', 'r']
def nAnimalBehavior : List Char :=
  ['A', 'n', 'i', 'm', 'a', 'l', 'B', 'e', 'h', 'a', 'v', 'i', 'o', 'r']

/-- `SYSTEM_RELOCATIONS`, in the source's (insertion) order. -/
def relocList : List (List Char × List Char) :=
  [ (nInventorySystem, fEconomy ++ '/' :: nInventorySystem),
    (nEconomySystem, fEconomy ++ '/' :: nEconomySystem),
    (nEnhancedCraftingSystem, fEconomy ++ '/' :: nEnhancedCraftingSystem),
    (nRecipeDiscoverySystem, fEconomy ++ '/' :: nRecipeDiscoverySystem),
    (nResourceReservationSystem, fEconomy ++ '/' :: nResourceReservationSystem),
    (nSocialSystem, fSocial ++ '/' :: nSocialSystem),
    (nMarriageSystem, fSocial ++ '/' :: nMarriageSystem),
    (nHouseholdSystem, fSocial ++ '/' :: nHouseholdSystem),
    (nReputationSystem, fSocial ++ '/' :: nReputationSystem),
    (nGenealogySystem, fSocial ++ '/' :: nGenealogySystem),
    (nWorldResourceSystem, fWorld ++ '/' :: nWorldResourceSystem),
    (nItemGenerationSystem, fWorld ++ '/' :: nItemGenerationSystem),
    (nProductionSystem, fWorld ++ '/' :: nProductionSystem),
    (nCombatSystem, fConflict ++ '/' :: nCombatSystem),
    (nConflictResolutionSystem, fConflict ++ '/' :: nConflictResolutionSystem),
    (nBuildingSystem, fStructures ++ '/' :: nBuildingSystem),
    (nGovernanceSystem, fStructures ++ '/' :: nGovernanceSystem),
    (nLifeCycleSystem, fLifecycle ++ '/' :: nLifeCycleSystem),
    (nTaskSystem, fObjectives ++ '/' :: nTaskSystem),
    (nTimeSystem, fCore ++ '/' :: nTimeSystem),
    (nChunkLoadingSystem, fCore ++ '/' :: nChunkLoadingSystem),
    (nTerrainSystem, fCore ++ '/' :: nTerrainSystem),
    (nAISystem, fAgents ++ '/' :: nAISystem),
    (nRoleSystem, fAgents ++ '/' :: nRoleSystem),
    (nEquipmentSystem, fAgents ++ '/' :: nEquipmentSystem),
    (nAmbientAwarenessSystem, fAgents ++ '/' :: nAmbientAwarenessSystem),
    (nNeedsSystem, fAgents ++ '/' :: (dNeeds ++ nNeedsSystem)),
    (nNeedsBatchProcessor, fAgents ++ '/' :: (dNeeds ++ nNeedsBatchProcessor)),
    (nMovementSystem, fAgents ++ '/' :: (dMovement ++ nMovementSystem)),
    (nMovementBatchProcessor, fAgents ++ '/' :: (dMovement ++ nMovementBatchProcessor)),
    (nSharedKnowledgeSystem, fAgents ++ '/' :: (dAi ++ nSharedKnowledgeSystem)),
    (nAnimalSystem, fWorld ++ '/' :: (dAnimals ++ nAnimalSystem)),
    (nAnimalBatchProcessor, fWorld ++ '/' :: (dAnimals ++ nAnimalBatchProcessor)),
    (nAnimalBehavior, fWorld ++ '/' :: (dAnimals ++ nAnimalBehavior)) ]

/-- Embedding of `fix_cross_system_imports(content, current_folder, depth)`. -/
def fix_cross_system_imports (folder : List Char) (depth : Nat) (content : List Char) :
    List Char :=
  relocList.foldl (fun c e => applySystem folder depth e.1 e.2 c) content

/-! File-level driver. -/

/-- Embedding of `get_depth`: the path is given by the components of
`filepath.relative_to(SYSTEMS_DIR)`, the last component being the filename. -/
def get_depth (relParts : List (List Char)) : Nat := relParts.length - 1

/-- Embedding of `fix_file`: returns the resulting on-disk content and the
0/1 modified count. A file is written back only when the transformed text
differs from the original. -/
def fix_file (relParts : List (List Char)) (content : List Char) : List Char × Nat :=
  if relParts.length < 2 then (content, 0)
  else
    let current_folder := relParts.headD []
    let depth := relParts.length - 1
    let c2 := fix_cross_system_imports current_folder depth
      (fix_external_imports depth content)
    if c2 == content then (content, 0) else (c2, 1)

/-- The per-file log line of `main` is printed exactly when `fix_file`
returns a nonzero count. -/
def logsFile (relParts : List (List Char)) (content : List Char) : Bool :=
  (fix_file relParts content).2 != 0

/-! Abbreviations for reference texts used in concrete statements. -/

/-- The reference `from "./N"`. -/
def refDot (N : List Char) : List Char :=
  fromSp ++ '"' :: '.' :: '/' :: (N ++ ['"'])

/-- The reference `from "../N"`. -/
def refUp (N : List Char) : List Char :=
  fromSp ++ '"' :: '.' :: '.' :: '/' :: (N ++ ['"'])

/-- The reference `from "X"`. -/
def refOf (X : List Char) : List Char := fromSp ++ '"' :: (X ++ ['"'])

/-- The one-pass transformation a file's content undergoes in `fix_file`. -/
def transformOnce (folder : List Char) (depth : Nat) (content : List Char) :
    List Char :=
  fix_cross_system_imports folder depth (fix_external_imports depth content)

/-- An external-style reference: `from ` + quote + `k` hops + root + residue. -/
def mkExt (q : Char) (k : Nat) (root X : List Char) : List Char :=
  'f' :: 'r' :: 'o' :: 'm' :: ' ' :: q :: (hopsL k ++ (root ++ X))

/-- Count of leading `../` segments of a text. -/
def leadHops : List Char → Nat
  | '.' :: '.' :: '/' :: r => leadHops r + 1
  | _ => 0

/-- A text block through which every scanner pass walks without matching,
whatever follows it. -/
def RootWalk (root : List Char) : Prop :=
  ∀ (tm : List Char → Option (Nat × List Char)) (X : List Char),
    subst tm (root ++ X) = root ++ subst tm X

/-- No suffix of the text begins with the literal `from `. -/
def noFromTails (s : List Char) : Prop :=
  ∀ t ∈ List.tails s, isPre fromSp t = false

/-- Per-entry side conditions used by the general `applySystem` lemmas:
the identifier is a nonempty run of word characters, neither the
identifier nor its new location embeds the `from ` literal, and identifier
and location start with distinct non-dot characters. -/
def sysOk (N loc : List Char) : Prop :=
  (∀ c ∈ N, wordSlash c = true) ∧ (∀ c ∈ N, ¬ c = '/') ∧
  noFromTails (N ++ ['"']) ∧ noFromTails (loc ++ ['"']) ∧
  N ≠ [] ∧ loc ≠ [] ∧ N.headD ' ' ≠ '.' ∧ loc.headD ' ' ≠ '.' ∧
  N.headD ' ' ≠ loc.headD ' '

instance (s : List Char) : Decidable (noFromTails s) := by
  unfold noFromTails; infer_instance

instance (N loc : List Char) : Decidable (sysOk N loc) := by
  unfold sysOk; infer_instance

/-- The first path component of a relocation target
(`new_location.split('/')[0]` of the source). -/
def folderOf (loc : List Char) : List Char := loc.takeWhile fun c => !(c == '/')

/-- The relocation target with its first component and slash removed. -/
def restOf (loc : List Char) : List Char := loc.drop ((folderOf loc).length + 1)

/-- The nested directory part of a relocation target: what stands between
the top-level subfolder and the identifier (empty, or ending in `/`). -/
def nestedOf (N loc : List Char) : List Char :=
  (restOf loc).take ((restOf loc).length - N.length)

/-- The five unconditional external root rules: baseline hop count and root. -/
def extRules : List (Nat × List Char) :=
  [(2, tyR), (2, woR), (3, shR), (3, inR), (3, cfR)]

/-- Does any configured pattern (external or cross) match somewhere in the
content, for a file with the given folder and depth? -/
def matchesAny (folder : List Char) (depth : Nat) (content : List Char) : Bool :=
  (extPassList depth).any (fun p => hasMatch p content) ||
  relocList.any fun e =>
    hasMatch (crossTail1 e.1 (relPathFor folder depth e.1 e.2)) content ||
    hasMatch (crossTail2 e.1 (relPathFor folder depth e.1 e.2)) content ||
    hasMatch (crossTail3 e.1 (relPathFor folder depth e.1 e.2)) content

/-! Basic lemmas about the text primitives. -/

lemma hopsL_add (m n : Nat) : hopsL (m + n) = hopsL m ++ hopsL n := by
  induction m with
  | zero => simp [hopsL]
  | succ i ih => rw [Nat.succ_add]; simp [hopsL, ih]

lemma hopsL_length (n : Nat) : (hopsL n).length = 3 * n := by
  induction n with
  | zero => simp [hopsL]
  | succ i ih => simp [hopsL, ih]; omega

lemma mem_hopsL {c : Char} {n : Nat} (h : c ∈ hopsL n) : c = '.' ∨ c = '/' := by
  induction n with
  | zero => simp [hopsL] at h
  | succ i ih =>
    simp only [hopsL, List.mem_cons] at h
    rcases h with h | h | h | h
    · exact Or.inl h
    · exact Or.inl h
    · exact Or.inr h
    · exact ih h

lemma isPre_self_append (l x : List Char) : isPre l (l ++ x) = true := by
  induction l with
  | nil => rfl
  | cons c cs ih => simp [isPre, ih]

lemma isPre_append_same (l a b : List Char) : isPre (l ++ a) (l ++ b) = isPre a b := by
  induction l with
  | nil => rfl
  | cons c cs ih => simp [isPre, ih]

lemma isPre_cons (a b : Char) (as bs : List Char) :
    isPre (a :: as) (b :: bs) = (a == b && isPre as bs) := rfl

/-- Comparing a hops-headed literal against a hops-headed text whose residues
start with non-dot characters: the hop counts must agree exactly. -/
lemma isPre_hops_master (b k : Nat) (c₂ c₁ : Char) (r2 Y : List Char)
    (h2 : c₂ ≠ '.') (h1 : c₁ ≠ '.') :
    isPre (hopsL b ++ c₂ :: r2) (hopsL k ++ c₁ :: Y) =
      (decide (b = k) && isPre (c₂ :: r2) (c₁ :: Y)) := by
  induction b generalizing k with
  | zero =>
    cases k with
    | zero => simp [hopsL]
    | succ j =>
      have hc : (c₂ == '.') = false := beq_eq_false_iff_ne.mpr h2
      simp [hopsL, isPre, hc]
  | succ i ih =>
    cases k with
    | zero =>
      have hc : (('.' : Char) == c₁) = false := beq_eq_false_iff_ne.mpr (Ne.symm h1)
      simp [hopsL, isPre, hc]
    | succ j =>
      have e1 : hopsL (i + 1) ++ c₂ :: r2 = '.' :: '.' :: '/' :: (hopsL i ++ c₂ :: r2) :=
        rfl
      have e2 : hopsL (j + 1) ++ c₁ :: Y = '.' :: '.' :: '/' :: (hopsL j ++ c₁ :: Y) :=
        rfl
      have hd : (decide (i + 1 = j + 1) : Bool) = decide (i = j) := by
        rw [decide_eq_decide]; omega
      rw [e1, e2, isPre_cons, isPre_cons, isPre_cons, ih j, hd]
      simp

/-! Lemmas about the scanner `subst` and the search `hasMatch`. -/

lemma substF_congr (tm : List Char → Option (Nat × List Char)) :
    ∀ (f₁ f₂ : Nat) (s : List Char), s.length ≤ f₁ → s.length ≤ f₂ →
      substF tm f₁ s = substF tm f₂ s := by
  intro f₁
  induction f₁ with
  | zero =>
    intro f₂ s h1 _
    cases s with
    | nil => cases f₂ <;> rfl
    | cons c cs => simp at h1
  | succ g ih =>
    intro f₂ s h1 h2
    cases s with
    | nil => cases f₂ <;> rfl
    | cons c cs =>
      cases f₂ with
      | zero => simp at h2
      | succ h =>
        cases hm : matchFrom tm (c :: cs) with
        | some nr =>
          obtain ⟨n, r⟩ := nr
          simp only [substF, hm]
          rw [ih h (List.drop (n + 5) (c :: cs))
            (by simp [List.length_drop] at *; omega)
            (by simp [List.length_drop] at *; omega)]
        | none =>
          simp only [substF, hm]
          rw [ih h cs (by simp at h1; omega) (by simp at h2; omega)]

lemma subst_nil (tm : List Char → Option (Nat × List Char)) : subst tm [] = [] := rfl

lemma subst_cons_none {tm : List Char → Option (Nat × List Char)} {c : Char}
    {cs : List Char} (h : matchFrom tm (c :: cs) = none) :
    subst tm (c :: cs) = c :: subst tm cs := by
  show substF tm (cs.length + 1) (c :: cs) = c :: substF tm cs.length cs
  simp [substF, h]

lemma subst_cons_match {tm : List Char → Option (Nat × List Char)} {c : Char}
    {cs : List Char} {n : Nat} {r : List Char}
    (h : matchFrom tm (c :: cs) = some (n, r)) :
    subst tm (c :: cs) = fromSp ++ r ++ subst tm (List.drop (n + 5) (c :: cs)) := by
  show substF tm (cs.length + 1) (c :: cs) = _
  simp only [substF, h]
  rw [substF_congr tm cs.length (List.drop (n + 5) (c :: cs)).length
    (List.drop (n + 5) (c :: cs)) (by simp [List.length_drop]) (le_refl _)]
  rfl

lemma matchFrom_eq_tm (tm : List Char → Option (Nat × List Char)) (rest : List Char) :
    matchFrom tm ('f' :: 'r' :: 'o' :: 'm' :: ' ' :: rest) = tm rest := by
  simp [matchFrom, fromSp, isPre]

lemma matchFrom_none_head {tm : List Char → Option (Nat × List Char)} {c : Char}
    (cs : List Char) (h : c ≠ 'f') : matchFrom tm (c :: cs) = none := by
  have hc : (('f' : Char) == c) = false := beq_eq_false_iff_ne.mpr (Ne.symm h)
  simp [matchFrom, fromSp, isPre, hc]

lemma matchFrom_none_of_isPre_false {tm : List Char → Option (Nat × List Char)}
    {s : List Char} (h : isPre fromSp s = false) : matchFrom tm s = none := by
  simp [matchFrom, h]

lemma subst_nof_append {tm : List Char → Option (Nat × List Char)} {l : List Char}
    (x : List Char) (h : ∀ c ∈ l, c ≠ 'f') :
    subst tm (l ++ x) = l ++ subst tm x := by
  induction l with
  | nil => rfl
  | cons c cs ih =>
    rw [List.cons_append,
      subst_cons_none (matchFrom_none_head _ (h c (List.mem_cons_self c cs))),
      ih fun a ha => h a (List.mem_cons_of_mem c ha)]
    rfl

lemma subst_hops {tm : List Char → Option (Nat × List Char)} (k : Nat) (x : List Char) :
    subst tm (hopsL k ++ x) = hopsL k ++ subst tm x :=
  subst_nof_append x fun c hc => by rcases mem_hopsL hc with h | h <;> simp [h]

lemma hasMatch_nil (tm : List Char → Option (Nat × List Char)) :
    hasMatch tm [] = false := by simp [hasMatch, matchFrom, isPre, fromSp]

lemma hasMatch_cons (tm : List Char → Option (Nat × List Char)) (c : Char)
    (cs : List Char) :
    hasMatch tm (c :: cs) = ((matchFrom tm (c :: cs)).isSome || hasMatch tm cs) := by
  simp [hasMatch]

lemma hasMatch_nof_append {tm : List Char → Option (Nat × List Char)} {l : List Char}
    (x : List Char) (h : ∀ c ∈ l, c ≠ 'f') :
    hasMatch tm (l ++ x) = hasMatch tm x := by
  induction l with
  | nil => rfl
  | cons c cs ih =>
    rw [List.cons_append, hasMatch_cons,
      matchFrom_none_head _ (h c (List.mem_cons_self c cs)),
      ih fun a ha => h a (List.mem_cons_of_mem c ha)]
    rfl

lemma hasMatch_hops {tm : List Char → Option (Nat × List Char)} (k : Nat)
    (x : List Char) : hasMatch tm (hopsL k ++ x) = hasMatch tm x :=
  hasMatch_nof_append x fun c hc => by rcases mem_hopsL hc with h | h <;> simp [h]

lemma subst_id_of_not_hasMatch {tm : List Char → Option (Nat × List Char)}
    {s : List Char} (h : hasMatch tm s = false) : subst tm s = s := by
  induction s with
  | nil => rfl
  | cons c cs ih =>
    rw [hasMatch_cons] at h
    simp only [Bool.or_eq_false_iff] at h
    rw [subst_cons_none (Option.not_isSome_iff_eq_none.mp (by simp [h.1])), ih h.2]

/-! External-rewriter lemmas. -/





lemma leadHops_hops (n : Nat) (c : Char) (Y : List Char) (h : c ≠ '.') :
    leadHops (hopsL n ++ c :: Y) = n := by
  induction n with
  | zero =>
    show leadHops (c :: Y) = 0
    unfold leadHops
    split
    · rename_i heq
      rw [List.cons.injEq] at heq
      exact absurd heq.1 h
    · rfl
  | succ i ih =>
    show leadHops ('.' :: '.' :: '/' :: (hopsL i ++ c :: Y)) = i + 1
    unfold leadHops
    simp [ih]



lemma rootWalk_of_nof {root : List Char} (h : ∀ c ∈ root, c ≠ 'f') : RootWalk root :=
  fun _ X => subst_nof_append X h

lemma rootWalk_tyR : RootWalk tyR := rootWalk_of_nof (by decide)

lemma rootWalk_woR : RootWalk woR := rootWalk_of_nof (by decide)

lemma rootWalk_shR : RootWalk shR := rootWalk_of_nof (by decide)

lemma rootWalk_coR : RootWalk coR := rootWalk_of_nof (by decide)

lemma rootWalk_inR : RootWalk inR := by
  intro tm X
  have e : inR ++ X =
      ['i', 'n'] ++ ('f' :: (['r', 'a', 's', 't', 'r', 'u', 'c', 't', 'u', 'r', 'e', '/'] ++ X)) :=
    rfl
  have hf : isPre fromSp
      ('f' :: (['r', 'a', 's', 't', 'r', 'u', 'c', 't', 'u', 'r', 'e', '/'] ++ X)) = false := by
    simp [fromSp, isPre]
  rw [e, subst_nof_append _ (by decide),
    subst_cons_none (matchFrom_none_of_isPre_false hf), subst_nof_append _ (by decide)]
  rfl

lemma rootWalk_cfR : RootWalk cfR := by
  intro tm X
  have e : cfR ++ X = ['c', 'o', 'n'] ++ ('f' :: (['i', 'g', '/'] ++ X)) := rfl
  have hf : isPre fromSp ('f' :: (['i', 'g', '/'] ++ X)) = false := by
    simp [fromSp, isPre]
  rw [e, subst_nof_append _ (by decide),
    subst_cons_none (matchFrom_none_of_isPre_false hf), subst_nof_append _ (by decide)]
  rfl

lemma extTailA_none_lit {lit repl : List Char} (q : Char) {s : List Char}
    (h : isPre lit s = false) : extTailA lit repl (q :: s) = none := by
  simp [extTailA, h]

lemma extTailB_none_q {lit repl : List Char} {q : Char} (s : List Char)
    (h : (q == '\'') = false) : extTailB lit repl (q :: s) = none := by
  simp [extTailB, h]

lemma extTailCoreA_none_lit (d : Nat) (q : Char) {s : List Char}
    (h : isPre (hopsL 1 ++ coR) s = false) : extTailCoreA d (q :: s) = none := by
  simp [extTailCoreA, h]

lemma extTailCoreB_none_q (d : Nat) {q : Char} (s : List Char)
    (h : (q == '\'') = false) : extTailCoreB d (q :: s) = none := by
  simp [extTailCoreB, h]

/-- Scanner step over `mkExt` when the tail matcher rejects at the start. -/
lemma subst_mkExt_none {tm : List Char → Option (Nat × List Char)} {q : Char}
    {k : Nat} {root X : List Char} (hq : q ≠ 'f') (hw : RootWalk root)
    (h0 : tm (q :: (hopsL k ++ (root ++ X))) = none) :
    subst tm (mkExt q k root X) = mkExt q k root (subst tm X) := by
  have h5 : matchFrom tm (mkExt q k root X) = none := by
    show matchFrom tm ('f' :: 'r' :: 'o' :: 'm' :: ' ' :: (q :: (hopsL k ++ (root ++ X)))) = none
    rw [matchFrom_eq_tm]; exact h0
  show subst tm ('f' :: 'r' :: 'o' :: 'm' :: ' ' :: q :: (hopsL k ++ (root ++ X))) = _
  rw [subst_cons_none h5,
    show ('r' :: 'o' :: 'm' :: ' ' :: q :: (hopsL k ++ (root ++ X))) =
      ['r', 'o', 'm', ' ', q] ++ (hopsL k ++ (root ++ X)) from rfl,
    subst_nof_append _ ?hnof, subst_hops, hw tm X]
  · rfl
  case hnof =>
    intro c hc
    simp only [List.mem_cons, List.not_mem_nil, or_false] at hc
    rcases hc with rfl | rfl | rfl | rfl | rfl
    · decide
    · decide
    · decide
    · decide
    · exact hq

/-- Scanner step over `mkExt` for the matching quote-class pass:
the match is replaced and scanning resumes on the residue. -/
lemma subst_mkExt_matchA {b : Nat} {root repl : List Char} {q : Char}
    (hq : isQ q = true) (X : List Char) :
    subst (extTailA (hopsL b ++ root) repl) (mkExt q b root X) =
      fromSp ++ '"' :: (repl ++ subst (extTailA (hopsL b ++ root) repl) X) := by
  have hlit : isPre (hopsL b ++ root) (hopsL b ++ (root ++ X)) = true := by
    rw [← List.append_assoc]; exact isPre_self_append _ _
  have hm : matchFrom (extTailA (hopsL b ++ root) repl)
      ('f' :: 'r' :: 'o' :: 'm' :: ' ' :: (q :: (hopsL b ++ (root ++ X)))) =
      some (1 + (hopsL b ++ root).length, '"' :: repl) := by
    rw [matchFrom_eq_tm]
    simp [extTailA, hq, hlit]
  have hdrop : List.drop (1 + (hopsL b ++ root).length + 5)
      ('f' :: 'r' :: 'o' :: 'm' :: ' ' :: q :: (hopsL b ++ (root ++ X))) = X := by
    have e : 'f' :: 'r' :: 'o' :: 'm' :: ' ' :: q :: (hopsL b ++ (root ++ X)) =
        (['f', 'r', 'o', 'm', ' ', q] ++ (hopsL b ++ root)) ++ X := by simp
    rw [e, show 1 + (hopsL b ++ root).length + 5 =
      (['f', 'r', 'o', 'm', ' ', q] ++ (hopsL b ++ root)).length from by simp; omega]
    exact List.drop_left _ _
  show subst _ ('f' :: 'r' :: 'o' :: 'm' :: ' ' :: q :: (hopsL b ++ (root ++ X))) = _
  rw [subst_cons_match hm, hdrop]
  simp

lemma isQ_cases {q : Char} (hq : isQ q = true) : q = '\'' ∨ q = '"' := by
  simpa [isQ] using hq

lemma isQ_ne_f {q : Char} (hq : isQ q = true) : q ≠ 'f' := by
  rcases isQ_cases hq with rfl | rfl <;> decide

lemma isPre_pair_false_of {b k : Nat} {c₂ c₁ : Char} {r2 t : List Char}
    (h2 : c₂ ≠ '.') (h1 : c₁ ≠ '.') (hres : isPre (c₂ :: r2) (c₁ :: t) = false) :
    isPre (hopsL b ++ c₂ :: r2) (hopsL k ++ c₁ :: t) = false := by
  rw [isPre_hops_master b k c₂ c₁ r2 t h2 h1, hres]
  simp

/-- Scanning a text never creates or destroys an `f`-free leading literal. -/
lemma subst_isPre_nof {tm : List Char → Option (Nat × List Char)} :
    ∀ (t p : List Char), (∀ c ∈ p, c ≠ 'f') →
      isPre p (subst tm t) = isPre p t := by
  have key : ∀ (n : Nat) (t p : List Char), t.length ≤ n → (∀ c ∈ p, c ≠ 'f') →
      isPre p (subst tm t) = isPre p t := by
    intro n
    induction n with
    | zero =>
      intro t p ht _
      cases t with
      | nil => rfl
      | cons c cs => simp at ht
    | succ m ih =>
      intro t p ht hp
      cases t with
      | nil => rfl
      | cons c cs =>
        cases hm : matchFrom tm (c :: cs) with
        | some nr =>
          obtain ⟨n', r⟩ := nr
          rw [subst_cons_match hm]
          cases p with
          | nil => rfl
          | cons a as =>
            have hc : c = 'f' := by
              by_contra hne
              rw [matchFrom_none_head cs hne] at hm
              exact absurd hm (by simp)
            have hfa : (a == 'f') = false :=
              beq_eq_false_iff_ne.mpr (hp a (List.mem_cons_self a as))
            have e : fromSp ++ r ++ subst tm (List.drop (n' + 5) (c :: cs)) =
                'f' :: ('r' :: 'o' :: 'm' :: ' ' :: (r ++ subst tm (List.drop (n' + 5) (c :: cs)))) :=
              rfl
            rw [e, hc, isPre_cons, isPre_cons, hfa]
            simp
        | none =>
          rw [subst_cons_none hm]
          cases p with
          | nil => rfl
          | cons a as =>
            rw [isPre_cons, isPre_cons,
              ih cs as (by simp at ht; omega) fun x hx => hp x (List.mem_cons_of_mem a hx)]
  intro t p hp
  exact key t.length t p (le_refl _) hp

lemma lookaheadBlocked_subst (tm : List Char → Option (Nat × List Char)) (X : List Char) :
    lookaheadBlocked (subst tm X) = lookaheadBlocked X := by
  unfold lookaheadBlocked
  rw [subst_isPre_nof X nTimeSystem (by decide),
    subst_isPre_nof X nChunkLoadingSystem (by decide),
    subst_isPre_nof X nTerrainSystem (by decide)]

lemma applyPasses_nil (c : List Char) : applyPasses [] c = c := rfl

lemma applyPasses_cons (p : List Char → Option (Nat × List Char))
    (ps : List (List Char → Option (Nat × List Char))) (c : List Char) :
    applyPasses (p :: ps) c = applyPasses ps (subst p c) := rfl

/-- Passes that all reject at the head of an `mkExt` text rewrite only its residue. -/
lemma applyPasses_mkExt_none {q : Char} {k : Nat} {root : List Char}
    (ps : List (List Char → Option (Nat × List Char)))
    (hq : q ≠ 'f') (hw : RootWalk root)
    (h0 : ∀ p ∈ ps, ∀ Y : List Char, p (q :: (hopsL k ++ (root ++ Y))) = none) :
    ∀ X, applyPasses ps (mkExt q k root X) = mkExt q k root (applyPasses ps X) := by
  induction ps with
  | nil => intro X; rfl
  | cons p ps ih =>
    intro X
    rw [applyPasses_cons, subst_mkExt_none hq hw (h0 p (List.mem_cons_self p ps) X),
      ih (fun p' hp' => h0 p' (List.mem_cons_of_mem p hp')) (subst p X), applyPasses_cons]

lemma mkExt_eq (q : Char) (k : Nat) (root Y : List Char) :
    fromSp ++ q :: ((hopsL k ++ root) ++ Y) = mkExt q k root Y := by
  simp [mkExt, fromSp]

/-- Extra lemmas for the `../core/` pattern's matcher. -/
lemma coreRest_drop (X : List Char) : (hopsL 1 ++ (coR ++ X)).drop 8 = X := by
  rw [← List.append_assoc,
    show (8 : Nat) = (hopsL 1 ++ coR).length from by decide]
  exact List.drop_left _ _

lemma extTailCoreA_none_blocked (d : Nat) (q : Char) (X : List Char)
    (h : lookaheadBlocked X = true) :
    extTailCoreA d (q :: (hopsL 1 ++ (coR ++ X))) = none := by
  simp [extTailCoreA, coreRest_drop, h]

lemma extTailCoreB_none_blocked (d : Nat) (q : Char) (X : List Char)
    (h : lookaheadBlocked X = true) :
    extTailCoreB d (q :: (hopsL 1 ++ (coR ++ X))) = none := by
  simp [extTailCoreB, coreRest_drop, h]

/-- Scanner step over `mkExt` for the matching core quote-class pass. -/
lemma subst_mkExt_matchCoreA {d : Nat} {q : Char} (hq : isQ q = true) (X : List Char)
    (hA : lookaheadBlocked X = false) :
    subst (extTailCoreA d) (mkExt q 1 coR X) =
      fromSp ++ '"' :: ((hopsL (d + 1) ++ coR) ++ subst (extTailCoreA d) X) := by
  have hlit : isPre (hopsL 1 ++ coR) (hopsL 1 ++ (coR ++ X)) = true := by
    rw [← List.append_assoc]; exact isPre_self_append _ _
  have hm : matchFrom (extTailCoreA d)
      ('f' :: 'r' :: 'o' :: 'm' :: ' ' :: (q :: (hopsL 1 ++ (coR ++ X)))) =
      some (1 + 8, '"' :: (hopsL (d + 1) ++ coR)) := by
    rw [matchFrom_eq_tm]
    simp [extTailCoreA, hq, hlit, coreRest_drop, hA]
  have hdrop : List.drop (1 + 8 + 5)
      ('f' :: 'r' :: 'o' :: 'm' :: ' ' :: q :: (hopsL 1 ++ (coR ++ X))) = X := by
    have e : 'f' :: 'r' :: 'o' :: 'm' :: ' ' :: q :: (hopsL 1 ++ (coR ++ X)) =
        (['f', 'r', 'o', 'm', ' ', q] ++ (hopsL 1 ++ coR)) ++ X := by simp
    rw [e, show 1 + 8 + 5 = (['f', 'r', 'o', 'm', ' ', q] ++ (hopsL 1 ++ coR)).length from by
      simp [hopsL_length, coR]]
    exact List.drop_left _ _
  show subst _ ('f' :: 'r' :: 'o' :: 'm' :: ' ' :: q :: (hopsL 1 ++ (coR ++ X))) = _
  rw [subst_cons_match hm, hdrop]
  simp

lemma extTailB_none_lit {lit repl : List Char} (q : Char) {s : List Char}
    (h : isPre lit s = false) : extTailB lit repl (q :: s) = none := by
  simp [extTailB, h]

/-- Pairwise refutations: a pattern literal for one external root never
matches a reference text headed by a different root. -/

lemma nopre_cf_co (k : Nat) (Y : List Char) :
    isPre (hopsL 3 ++ cfR) (hopsL k ++ (coR ++ Y)) = false := by
  simp only [cfR, coR, List.cons_append, List.nil_append]
  exact isPre_pair_false_of (by decide) (by decide) (by simp [isPre])

lemma nopre_cf_in (k : Nat) (Y : List Char) :
    isPre (hopsL 3 ++ cfR) (hopsL k ++ (inR ++ Y)) = false := by
  simp only [cfR, inR, List.cons_append, List.nil_append]
  exact isPre_pair_false_of (by decide) (by decide) (by simp [isPre])

lemma nopre_cf_sh (k : Nat) (Y : List Char) :
    isPre (hopsL 3 ++ cfR) (hopsL k ++ (shR ++ Y)) = false := by
  simp only [cfR, shR, List.cons_append, List.nil_append]
  exact isPre_pair_false_of (by decide) (by decide) (by simp [isPre])

lemma nopre_cf_ty (k : Nat) (Y : List Char) :
    isPre (hopsL 3 ++ cfR) (hopsL k ++ (tyR ++ Y)) = false := by
  simp only [cfR, tyR, List.cons_append, List.nil_append]
  exact isPre_pair_false_of (by decide) (by decide) (by simp [isPre])

lemma nopre_cf_wo (k : Nat) (Y : List Char) :
    isPre (hopsL 3 ++ cfR) (hopsL k ++ (woR ++ Y)) = false := by
  simp only [cfR, woR, List.cons_append, List.nil_append]
  exact isPre_pair_false_of (by decide) (by decide) (by simp [isPre])

lemma nopre_co_cf (k : Nat) (Y : List Char) :
    isPre (hopsL 1 ++ coR) (hopsL k ++ (cfR ++ Y)) = false := by
  simp only [coR, cfR, List.cons_append, List.nil_append]
  exact isPre_pair_false_of (by decide) (by decide) (by simp [isPre])

lemma nopre_co_in (k : Nat) (Y : List Char) :
    isPre (hopsL 1 ++ coR) (hopsL k ++ (inR ++ Y)) = false := by
  simp only [coR, inR, List.cons_append, List.nil_append]
  exact isPre_pair_false_of (by decide) (by decide) (by simp [isPre])

lemma nopre_co_sh (k : Nat) (Y : List Char) :
    isPre (hopsL 1 ++ coR) (hopsL k ++ (shR ++ Y)) = false := by
  simp only [coR, shR, List.cons_append, List.nil_append]
  exact isPre_pair_false_of (by decide) (by decide) (by simp [isPre])

lemma nopre_co_ty (k : Nat) (Y : List Char) :
    isPre (hopsL 1 ++ coR) (hopsL k ++ (tyR ++ Y)) = false := by
  simp only [coR, tyR, List.cons_append, List.nil_append]
  exact isPre_pair_false_of (by decide) (by decide) (by simp [isPre])

lemma nopre_co_wo (k : Nat) (Y : List Char) :
    isPre (hopsL 1 ++ coR) (hopsL k ++ (woR ++ Y)) = false := by
  simp only [coR, woR, List.cons_append, List.nil_append]
  exact isPre_pair_false_of (by decide) (by decide) (by simp [isPre])

lemma nopre_in_cf (k : Nat) (Y : List Char) :
    isPre (hopsL 3 ++ inR) (hopsL k ++ (cfR ++ Y)) = false := by
  simp only [inR, cfR, List.cons_append, List.nil_append]
  exact isPre_pair_false_of (by decide) (by decide) (by simp [isPre])

lemma nopre_in_co (k : Nat) (Y : List Char) :
    isPre (hopsL 3 ++ inR) (hopsL k ++ (coR ++ Y)) = false := by
  simp only [inR, coR, List.cons_append, List.nil_append]
  exact isPre_pair_false_of (by decide) (by decide) (by simp [isPre])

lemma nopre_in_sh (k : Nat) (Y : List Char) :
    isPre (hopsL 3 ++ inR) (hopsL k ++ (shR ++ Y)) = false := by
  simp only [inR, shR, List.cons_append, List.nil_append]
  exact isPre_pair_false_of (by decide) (by decide) (by simp [isPre])

lemma nopre_in_ty (k : Nat) (Y : List Char) :
    isPre (hopsL 3 ++ inR) (hopsL k ++ (tyR ++ Y)) = false := by
  simp only [inR, tyR, List.cons_append, List.nil_append]
  exact isPre_pair_false_of (by decide) (by decide) (by simp [isPre])

lemma nopre_in_wo (k : Nat) (Y : List Char) :
    isPre (hopsL 3 ++ inR) (hopsL k ++ (woR ++ Y)) = false := by
  simp only [inR, woR, List.cons_append, List.nil_append]
  exact isPre_pair_false_of (by decide) (by decide) (by simp [isPre])

lemma nopre_sh_cf (k : Nat) (Y : List Char) :
    isPre (hopsL 3 ++ shR) (hopsL k ++ (cfR ++ Y)) = false := by
  simp only [shR, cfR, List.cons_append, List.nil_append]
  exact isPre_pair_false_of (by decide) (by decide) (by simp [isPre])

lemma nopre_sh_co (k : Nat) (Y : List Char) :
    isPre (hopsL 3 ++ shR) (hopsL k ++ (coR ++ Y)) = false := by
  simp only [shR, coR, List.cons_append, List.nil_append]
  exact isPre_pair_false_of (by decide) (by decide) (by simp [isPre])

lemma nopre_sh_in (k : Nat) (Y : List Char) :
    isPre (hopsL 3 ++ shR) (hopsL k ++ (inR ++ Y)) = false := by
  simp only [shR, inR, List.cons_append, List.nil_append]
  exact isPre_pair_false_of (by decide) (by decide) (by simp [isPre])

lemma nopre_sh_ty (k : Nat) (Y : List Char) :
    isPre (hopsL 3 ++ shR) (hopsL k ++ (tyR ++ Y)) = false := by
  simp only [shR, tyR, List.cons_append, List.nil_append]
  exact isPre_pair_false_of (by decide) (by decide) (by simp [isPre])

lemma nopre_sh_wo (k : Nat) (Y : List Char) :
    isPre (hopsL 3 ++ shR) (hopsL k ++ (woR ++ Y)) = false := by
  simp only [shR, woR, List.cons_append, List.nil_append]
  exact isPre_pair_false_of (by decide) (by decide) (by simp [isPre])

lemma nopre_ty_cf (k : Nat) (Y : List Char) :
    isPre (hopsL 2 ++ tyR) (hopsL k ++ (cfR ++ Y)) = false := by
  simp only [tyR, cfR, List.cons_append, List.nil_append]
  exact isPre_pair_false_of (by decide) (by decide) (by simp [isPre])

lemma nopre_ty_co (k : Nat) (Y : List Char) :
    isPre (hopsL 2 ++ tyR) (hopsL k ++ (coR ++ Y)) = false := by
  simp only [tyR, coR, List.cons_append, List.nil_append]
  exact isPre_pair_false_of (by decide) (by decide) (by simp [isPre])

lemma nopre_ty_in (k : Nat) (Y : List Char) :
    isPre (hopsL 2 ++ tyR) (hopsL k ++ (inR ++ Y)) = false := by
  simp only [tyR, inR, List.cons_append, List.nil_append]
  exact isPre_pair_false_of (by decide) (by decide) (by simp [isPre])

lemma nopre_ty_sh (k : Nat) (Y : List Char) :
    isPre (hopsL 2 ++ tyR) (hopsL k ++ (shR ++ Y)) = false := by
  simp only [tyR, shR, List.cons_append, List.nil_append]
  exact isPre_pair_false_of (by decide) (by decide) (by simp [isPre])

lemma nopre_ty_wo (k : Nat) (Y : List Char) :
    isPre (hopsL 2 ++ tyR) (hopsL k ++ (woR ++ Y)) = false := by
  simp only [tyR, woR, List.cons_append, List.nil_append]
  exact isPre_pair_false_of (by decide) (by decide) (by simp [isPre])

lemma nopre_wo_cf (k : Nat) (Y : List Char) :
    isPre (hopsL 2 ++ woR) (hopsL k ++ (cfR ++ Y)) = false := by
  simp only [woR, cfR, List.cons_append, List.nil_append]
  exact isPre_pair_false_of (by decide) (by decide) (by simp [isPre])

lemma nopre_wo_co (k : Nat) (Y : List Char) :
    isPre (hopsL 2 ++ woR) (hopsL k ++ (coR ++ Y)) = false := by
  simp only [woR, coR, List.cons_append, List.nil_append]
  exact isPre_pair_false_of (by decide) (by decide) (by simp [isPre])

lemma nopre_wo_in (k : Nat) (Y : List Char) :
    isPre (hopsL 2 ++ woR) (hopsL k ++ (inR ++ Y)) = false := by
  simp only [woR, inR, List.cons_append, List.nil_append]
  exact isPre_pair_false_of (by decide) (by decide) (by simp [isPre])

lemma nopre_wo_sh (k : Nat) (Y : List Char) :
    isPre (hopsL 2 ++ woR) (hopsL k ++ (shR ++ Y)) = false := by
  simp only [woR, shR, List.cons_append, List.nil_append]
  exact isPre_pair_false_of (by decide) (by decide) (by simp [isPre])

lemma nopre_wo_ty (k : Nat) (Y : List Char) :
    isPre (hopsL 2 ++ woR) (hopsL k ++ (tyR ++ Y)) = false := by
  simp only [woR, tyR, List.cons_append, List.nil_append]
  exact isPre_pair_false_of (by decide) (by decide) (by simp [isPre])

/-- The full external rewriter on a double-quoted `../../types/` reference:
the reference gains exactly `depth` extra hops, the rest of the text is
rewritten as it would be alone. -/
lemma ext_rw_ty (d : Nat) (q : Char) (hq : isQ q = true) (X : List Char) :
    fix_external_imports d (mkExt q 2 tyR X) =
      mkExt '"' (d + 2) tyR (fix_external_imports d X) := by
  show applyPasses (extPassList d) _ = mkExt '"' (d + 2) tyR (applyPasses (extPassList d) X)
  simp only [extPassList]
  conv_rhs => rw [applyPasses_cons]
  rw [applyPasses_cons, subst_mkExt_matchA hq X, mkExt_eq,
    applyPasses_mkExt_none _ (by decide) rootWalk_tyR ?h0]
  case h0 =>
    intro p hp Y
    simp only [List.mem_cons, List.not_mem_nil, or_false] at hp
    rcases hp with rfl | rfl | rfl | rfl | rfl | rfl | rfl | rfl | rfl | rfl | rfl
    · exact extTailB_none_q _ (by decide)
    · exact extTailA_none_lit _ (nopre_wo_ty _ _)
    · exact extTailB_none_q _ (by decide)
    · exact extTailA_none_lit _ (nopre_sh_ty _ _)
    · exact extTailB_none_q _ (by decide)
    · exact extTailA_none_lit _ (nopre_in_ty _ _)
    · exact extTailB_none_q _ (by decide)
    · exact extTailA_none_lit _ (nopre_cf_ty _ _)
    · exact extTailB_none_q _ (by decide)
    · exact extTailCoreA_none_lit _ _ (nopre_co_ty _ _)
    · exact extTailCoreB_none_q _ _ (by decide)

/-- The full external rewriter on a `../../world/` reference. -/
lemma ext_rw_wo (d : Nat) (q : Char) (hq : isQ q = true) (X : List Char) :
    fix_external_imports d (mkExt q 2 woR X) =
      mkExt '"' (d + 2) woR (fix_external_imports d X) := by
  show applyPasses (extPassList d) _ = mkExt '"' (d + 2) woR (applyPasses (extPassList d) X)
  simp only [extPassList]
  conv_rhs => rw [applyPasses_cons, applyPasses_cons, applyPasses_cons]
  rw [applyPasses_cons, subst_mkExt_none (isQ_ne_f hq) rootWalk_woR ?p1,
    applyPasses_cons, subst_mkExt_none (isQ_ne_f hq) rootWalk_woR ?p2,
    applyPasses_cons, subst_mkExt_matchA hq, mkExt_eq,
    applyPasses_mkExt_none _ (by decide) rootWalk_woR ?h0]
  case p1 => exact extTailA_none_lit _ (nopre_ty_wo _ _)
  case p2 => exact extTailB_none_lit _ (nopre_ty_wo _ _)
  case h0 =>
    intro p hp Y
    simp only [List.mem_cons, List.not_mem_nil, or_false] at hp
    rcases hp with rfl | rfl | rfl | rfl | rfl | rfl | rfl | rfl | rfl
    · exact extTailB_none_q _ (by decide)
    · exact extTailA_none_lit _ (nopre_sh_wo _ _)
    · exact extTailB_none_q _ (by decide)
    · exact extTailA_none_lit _ (nopre_in_wo _ _)
    · exact extTailB_none_q _ (by decide)
    · exact extTailA_none_lit _ (nopre_cf_wo _ _)
    · exact extTailB_none_q _ (by decide)
    · exact extTailCoreA_none_lit _ _ (nopre_co_wo _ _)
    · exact extTailCoreB_none_q _ _ (by decide)

/-- The full external rewriter on a `../../../shared/` reference. -/
lemma ext_rw_sh (d : Nat) (q : Char) (hq : isQ q = true) (X : List Char) :
    fix_external_imports d (mkExt q 3 shR X) =
      mkExt '"' (d + 3) shR (fix_external_imports d X) := by
  show applyPasses (extPassList d) _ = mkExt '"' (d + 3) shR (applyPasses (extPassList d) X)
  simp only [extPassList]
  conv_rhs => rw [applyPasses_cons, applyPasses_cons, applyPasses_cons, applyPasses_cons,
    applyPasses_cons]
  rw [applyPasses_cons, subst_mkExt_none (isQ_ne_f hq) rootWalk_shR ?p1,
    applyPasses_cons, subst_mkExt_none (isQ_ne_f hq) rootWalk_shR ?p2,
    applyPasses_cons, subst_mkExt_none (isQ_ne_f hq) rootWalk_shR ?p3,
    applyPasses_cons, subst_mkExt_none (isQ_ne_f hq) rootWalk_shR ?p4,
    applyPasses_cons, subst_mkExt_matchA hq, mkExt_eq,
    applyPasses_mkExt_none _ (by decide) rootWalk_shR ?h0]
  case p1 => exact extTailA_none_lit _ (nopre_ty_sh _ _)
  case p2 => exact extTailB_none_lit _ (nopre_ty_sh _ _)
  case p3 => exact extTailA_none_lit _ (nopre_wo_sh _ _)
  case p4 => exact extTailB_none_lit _ (nopre_wo_sh _ _)
  case h0 =>
    intro p hp Y
    simp only [List.mem_cons, List.not_mem_nil, or_false] at hp
    rcases hp with rfl | rfl | rfl | rfl | rfl | rfl | rfl
    · exact extTailB_none_q _ (by decide)
    · exact extTailA_none_lit _ (nopre_in_sh _ _)
    · exact extTailB_none_q _ (by decide)
    · exact extTailA_none_lit _ (nopre_cf_sh _ _)
    · exact extTailB_none_q _ (by decide)
    · exact extTailCoreA_none_lit _ _ (nopre_co_sh _ _)
    · exact extTailCoreB_none_q _ _ (by decide)

/-- The full external rewriter on a `../../../infrastructure/` reference. -/
lemma ext_rw_in (d : Nat) (q : Char) (hq : isQ q = true) (X : List Char) :
    fix_external_imports d (mkExt q 3 inR X) =
      mkExt '"' (d + 3) inR (fix_external_imports d X) := by
  show applyPasses (extPassList d) _ = mkExt '"' (d + 3) inR (applyPasses (extPassList d) X)
  simp only [extPassList]
  conv_rhs => rw [applyPasses_cons, applyPasses_cons, applyPasses_cons, applyPasses_cons,
    applyPasses_cons, applyPasses_cons, applyPasses_cons]
  rw [applyPasses_cons, subst_mkExt_none (isQ_ne_f hq) rootWalk_inR ?p1,
    applyPasses_cons, subst_mkExt_none (isQ_ne_f hq) rootWalk_inR ?p2,
    applyPasses_cons, subst_mkExt_none (isQ_ne_f hq) rootWalk_inR ?p3,
    applyPasses_cons, subst_mkExt_none (isQ_ne_f hq) rootWalk_inR ?p4,
    applyPasses_cons, subst_mkExt_none (isQ_ne_f hq) rootWalk_inR ?p5,
    applyPasses_cons, subst_mkExt_none (isQ_ne_f hq) rootWalk_inR ?p6,
    applyPasses_cons, subst_mkExt_matchA hq, mkExt_eq,
    applyPasses_mkExt_none _ (by decide) rootWalk_inR ?h0]
  case p1 => exact extTailA_none_lit _ (nopre_ty_in _ _)
  case p2 => exact extTailB_none_lit _ (nopre_ty_in _ _)
  case p3 => exact extTailA_none_lit _ (nopre_wo_in _ _)
  case p4 => exact extTailB_none_lit _ (nopre_wo_in _ _)
  case p5 => exact extTailA_none_lit _ (nopre_sh_in _ _)
  case p6 => exact extTailB_none_lit _ (nopre_sh_in _ _)
  case h0 =>
    intro p hp Y
    simp only [List.mem_cons, List.not_mem_nil, or_false] at hp
    rcases hp with rfl | rfl | rfl | rfl | rfl
    · exact extTailB_none_q _ (by decide)
    · exact extTailA_none_lit _ (nopre_cf_in _ _)
    · exact extTailB_none_q _ (by decide)
    · exact extTailCoreA_none_lit _ _ (nopre_co_in _ _)
    · exact extTailCoreB_none_q _ _ (by decide)

/-- The full external rewriter on a `../../../config/` reference. -/
lemma ext_rw_cf (d : Nat) (q : Char) (hq : isQ q = true) (X : List Char) :
    fix_external_imports d (mkExt q 3 cfR X) =
      mkExt '"' (d + 3) cfR (fix_external_imports d X) := by
  show applyPasses (extPassList d) _ = mkExt '"' (d + 3) cfR (applyPasses (extPassList d) X)
  simp only [extPassList]
  conv_rhs => rw [applyPasses_cons, applyPasses_cons, applyPasses_cons, applyPasses_cons,
    applyPasses_cons, applyPasses_cons, applyPasses_cons, applyPasses_cons,
    applyPasses_cons]
  rw [applyPasses_cons, subst_mkExt_none (isQ_ne_f hq) rootWalk_cfR ?p1,
    applyPasses_cons, subst_mkExt_none (isQ_ne_f hq) rootWalk_cfR ?p2,
    applyPasses_cons, subst_mkExt_none (isQ_ne_f hq) rootWalk_cfR ?p3,
    applyPasses_cons, subst_mkExt_none (isQ_ne_f hq) rootWalk_cfR ?p4,
    applyPasses_cons, subst_mkExt_none (isQ_ne_f hq) rootWalk_cfR ?p5,
    applyPasses_cons, subst_mkExt_none (isQ_ne_f hq) rootWalk_cfR ?p6,
    applyPasses_cons, subst_mkExt_none (isQ_ne_f hq) rootWalk_cfR ?p7,
    applyPasses_cons, subst_mkExt_none (isQ_ne_f hq) rootWalk_cfR ?p8,
    applyPasses_cons, subst_mkExt_matchA hq, mkExt_eq,
    applyPasses_mkExt_none _ (by decide) rootWalk_cfR ?h0]
  case p1 => exact extTailA_none_lit _ (nopre_ty_cf _ _)
  case p2 => exact extTailB_none_lit _ (nopre_ty_cf _ _)
  case p3 => exact extTailA_none_lit _ (nopre_wo_cf _ _)
  case p4 => exact extTailB_none_lit _ (nopre_wo_cf _ _)
  case p5 => exact extTailA_none_lit _ (nopre_sh_cf _ _)
  case p6 => exact extTailB_none_lit _ (nopre_sh_cf _ _)
  case p7 => exact extTailA_none_lit _ (nopre_in_cf _ _)
  case p8 => exact extTailB_none_lit _ (nopre_in_cf _ _)
  case h0 =>
    intro p hp Y
    simp only [List.mem_cons, List.not_mem_nil, or_false] at hp
    rcases hp with rfl | rfl | rfl
    · exact extTailB_none_q _ (by decide)
    · exact extTailCoreA_none_lit _ _ (nopre_co_cf _ _)
    · exact extTailCoreB_none_q _ _ (by decide)

/-- The full external rewriter on a `../core/` reference whose identifier is
not excluded by the negative lookahead: `depth + 1` hops result. -/
lemma ext_rw_co (d : Nat) (q : Char) (hq : isQ q = true) (X : List Char)
    (hbl : lookaheadBlocked X = false) :
    fix_external_imports d (mkExt q 1 coR X) =
      mkExt '"' (d + 1) coR (fix_external_imports d X) := by
  show applyPasses (extPassList d) _ = mkExt '"' (d + 1) coR (applyPasses (extPassList d) X)
  simp only [extPassList]
  conv_rhs => rw [applyPasses_cons, applyPasses_cons, applyPasses_cons, applyPasses_cons,
    applyPasses_cons, applyPasses_cons, applyPasses_cons, applyPasses_cons,
    applyPasses_cons, applyPasses_cons, applyPasses_cons, applyPasses_cons,
    applyPasses_nil]
  rw [applyPasses_cons, subst_mkExt_none (isQ_ne_f hq) rootWalk_coR ?p1,
    applyPasses_cons, subst_mkExt_none (isQ_ne_f hq) rootWalk_coR ?p2,
    applyPasses_cons, subst_mkExt_none (isQ_ne_f hq) rootWalk_coR ?p3,
    applyPasses_cons, subst_mkExt_none (isQ_ne_f hq) rootWalk_coR ?p4,
    applyPasses_cons, subst_mkExt_none (isQ_ne_f hq) rootWalk_coR ?p5,
    applyPasses_cons, subst_mkExt_none (isQ_ne_f hq) rootWalk_coR ?p6,
    applyPasses_cons, subst_mkExt_none (isQ_ne_f hq) rootWalk_coR ?p7,
    applyPasses_cons, subst_mkExt_none (isQ_ne_f hq) rootWalk_coR ?p8,
    applyPasses_cons, subst_mkExt_none (isQ_ne_f hq) rootWalk_coR ?p9,
    applyPasses_cons, subst_mkExt_none (isQ_ne_f hq) rootWalk_coR ?p10,
    applyPasses_cons, subst_mkExt_matchCoreA hq _ ?hA, mkExt_eq,
    applyPasses_cons, subst_mkExt_none (by decide) rootWalk_coR ?p12, applyPasses_nil]
  case p1 => exact extTailA_none_lit _ (nopre_ty_co _ _)
  case p2 => exact extTailB_none_lit _ (nopre_ty_co _ _)
  case p3 => exact extTailA_none_lit _ (nopre_wo_co _ _)
  case p4 => exact extTailB_none_lit _ (nopre_wo_co _ _)
  case p5 => exact extTailA_none_lit _ (nopre_sh_co _ _)
  case p6 => exact extTailB_none_lit _ (nopre_sh_co _ _)
  case p7 => exact extTailA_none_lit _ (nopre_in_co _ _)
  case p8 => exact extTailB_none_lit _ (nopre_in_co _ _)
  case p9 => exact extTailA_none_lit _ (nopre_cf_co _ _)
  case p10 => exact extTailB_none_lit _ (nopre_cf_co _ _)
  case hA => simp only [lookaheadBlocked_subst]; exact hbl
  case p12 => exact extTailCoreB_none_q _ _ (by decide)

/-- The full external rewriter on a `../core/` reference whose identifier
is one of the excluded relocated names: the reference is left as it is. -/
lemma ext_rw_co_blocked (d : Nat) (q : Char) (hq : isQ q = true) (X : List Char)
    (hbl : lookaheadBlocked X = true) :
    fix_external_imports d (mkExt q 1 coR X) =
      mkExt q 1 coR (fix_external_imports d X) := by
  show applyPasses (extPassList d) _ = mkExt q 1 coR (applyPasses (extPassList d) X)
  simp only [extPassList]
  conv_rhs => rw [applyPasses_cons, applyPasses_cons, applyPasses_cons, applyPasses_cons,
    applyPasses_cons, applyPasses_cons, applyPasses_cons, applyPasses_cons,
    applyPasses_cons, applyPasses_cons, applyPasses_cons, applyPasses_cons,
    applyPasses_nil]
  rw [applyPasses_cons, subst_mkExt_none (isQ_ne_f hq) rootWalk_coR ?p1,
    applyPasses_cons, subst_mkExt_none (isQ_ne_f hq) rootWalk_coR ?p2,
    applyPasses_cons, subst_mkExt_none (isQ_ne_f hq) rootWalk_coR ?p3,
    applyPasses_cons, subst_mkExt_none (isQ_ne_f hq) rootWalk_coR ?p4,
    applyPasses_cons, subst_mkExt_none (isQ_ne_f hq) rootWalk_coR ?p5,
    applyPasses_cons, subst_mkExt_none (isQ_ne_f hq) rootWalk_coR ?p6,
    applyPasses_cons, subst_mkExt_none (isQ_ne_f hq) rootWalk_coR ?p7,
    applyPasses_cons, subst_mkExt_none (isQ_ne_f hq) rootWalk_coR ?p8,
    applyPasses_cons, subst_mkExt_none (isQ_ne_f hq) rootWalk_coR ?p9,
    applyPasses_cons, subst_mkExt_none (isQ_ne_f hq) rootWalk_coR ?p10,
    applyPasses_cons, subst_mkExt_none (isQ_ne_f hq) rootWalk_coR ?p11,
    applyPasses_cons, subst_mkExt_none (isQ_ne_f hq) rootWalk_coR ?p12,
    applyPasses_nil]
  case p1 => exact extTailA_none_lit _ (nopre_ty_co _ _)
  case p2 => exact extTailB_none_lit _ (nopre_ty_co _ _)
  case p3 => exact extTailA_none_lit _ (nopre_wo_co _ _)
  case p4 => exact extTailB_none_lit _ (nopre_wo_co _ _)
  case p5 => exact extTailA_none_lit _ (nopre_sh_co _ _)
  case p6 => exact extTailB_none_lit _ (nopre_sh_co _ _)
  case p7 => exact extTailA_none_lit _ (nopre_in_co _ _)
  case p8 => exact extTailB_none_lit _ (nopre_in_co _ _)
  case p9 => exact extTailA_none_lit _ (nopre_cf_co _ _)
  case p10 => exact extTailB_none_lit _ (nopre_cf_co _ _)
  case p11 => exact extTailCoreA_none_blocked _ _ _ (by
    simp only [lookaheadBlocked_subst]; exact hbl)
  case p12 => exact extTailCoreB_none_blocked _ _ _ (by
    simp only [lookaheadBlocked_subst]; exact hbl)

/-! Cross-rewriter lemmas. -/

lemma applyPat_pos {tm : List Char → Option (Nat × List Char)} {c : List Char}
    (h : hasMatch tm c = true) : applyPat tm c = subst tm c := by
  simp [applyPat, h]

lemma applyPat_neg {tm : List Char → Option (Nat × List Char)} {c : List Char}
    (h : hasMatch tm c = false) : applyPat tm c = c := by
  simp [applyPat, h]

lemma hasMatch_of_head {tm : List Char → Option (Nat × List Char)} {s : List Char}
    {p : Nat × List Char} (h : matchFrom tm s = some p) : hasMatch tm s = true := by
  cases s with
  | nil => simp [matchFrom, isPre, fromSp] at h
  | cons c cs => rw [hasMatch_cons, h]; rfl



lemma hasMatch_false_of_noFrom {tm : List Char → Option (Nat × List Char)}
    {s : List Char} (h : noFromTails s) : hasMatch tm s = false := by
  induction s with
  | nil => exact hasMatch_nil tm
  | cons c cs ih =>
    rw [hasMatch_cons,
      matchFrom_none_of_isPre_false (h _ (by rw [List.tails_cons]; exact List.mem_cons_self _ _)),
      ih fun t ht => h t (by rw [List.tails_cons]; exact List.mem_cons_of_mem _ ht)]
    rfl

lemma hasMatch_fromQ {tm : List Char → Option (Nat × List Char)} {q : Char}
    (hq : q ≠ 'f') (rest : List Char) :
    hasMatch tm ('f' :: 'r' :: 'o' :: 'm' :: ' ' :: q :: rest) =
      ((tm (q :: rest)).isSome || hasMatch tm rest) := by
  rw [hasMatch_cons, hasMatch_cons, hasMatch_cons, hasMatch_cons, hasMatch_cons,
    hasMatch_cons, matchFrom_eq_tm,
    matchFrom_none_head _ (by decide), matchFrom_none_head _ (by decide),
    matchFrom_none_head _ (by decide), matchFrom_none_head _ (by decide),
    matchFrom_none_head _ hq]
  simp

lemma hasMatch_dotSlash {tm : List Char → Option (Nat × List Char)} {Z : List Char}
    (hZ : noFromTails Z) : hasMatch tm ('.' :: '/' :: Z) = false := by
  rw [hasMatch_cons, hasMatch_cons, matchFrom_none_head _ (by decide),
    matchFrom_none_head _ (by decide), hasMatch_false_of_noFrom hZ]
  rfl

lemma crossTail1_none_ddot (N rel : List Char) (q : Char) (t : List Char) :
    crossTail1 N rel (q :: '.' :: '.' :: t) = none := rfl

lemma crossTail3_none_ddot (N rel : List Char) (q : Char) (t : List Char) :
    crossTail3 N rel (q :: '.' :: '.' :: t) = none := rfl

lemma crossTail2_none_dslash (N rel : List Char) (q : Char) (t : List Char) :
    crossTail2 N rel (q :: '.' :: '/' :: t) = none := rfl

lemma qAfter_self (N : List Char) (q : Char) (xs : List Char) (hq : isQ q = true) :
    qAfter N (N ++ q :: xs) = true := by
  unfold qAfter
  rw [isPre_self_append, show (N ++ q :: xs).drop N.length = q :: xs from
    List.drop_left N (q :: xs)]
  simp [hq]

lemma qAfter_false_head (n₀ : Char) (N' : List Char) (r₀ : Char) (R' : List Char)
    (hne : (n₀ == r₀) = false) : qAfter (n₀ :: N') (r₀ :: R') = false := by
  unfold qAfter
  rw [isPre_cons, hne]
  rfl

lemma crossTail2_none_qAfter {N rel : List Char} {q : Char} {rest : List Char}
    (h : qAfter N rest = false) : crossTail2 N rel (q :: '.' :: '.' :: '/' :: rest) = none := by
  simp [crossTail2, h]

lemma getD_append_left {l : List Char} (l' : List Char) {n : Nat} (h : n < l.length)
    (d : Char) : (l ++ l').getD n d = l.getD n d := by
  unfold List.getD
  rw [List.get?_append h]

lemma getD_mem {l : List Char} {n : Nat} (h : n < l.length) (d : Char) :
    l.getD n d ∈ l := by
  unfold List.getD
  rw [List.get?_eq_get h]
  show l.get ⟨n, h⟩ ∈ l
  exact List.get_mem l n h

lemma wsRun_append_q (N : List Char) (q : Char) (xs : List Char)
    (hw : ∀ c ∈ N, wordSlash c = true) (hq : wordSlash q = false) :
    wsRun (N ++ q :: xs) = N.length := by
  induction N with
  | nil => simp [wsRun, hq]
  | cons c cs ih =>
    rw [List.cons_append]
    show (if wordSlash c then wsRun (cs ++ q :: xs) + 1 else 0) = _
    rw [hw c (List.mem_cons_self c cs), ih fun a ha => hw a (List.mem_cons_of_mem c ha)]
    simp

lemma groupLen_none_selfQ (N xs : List Char)
    (hw : ∀ c ∈ N, wordSlash c = true) (hs : ∀ c ∈ N, ¬ c = '/') :
    groupLen N (N ++ '"' :: xs) = none := by
  unfold groupLen
  rw [wsRun_append_q N '"' xs hw (by decide)]
  apply List.find?_eq_none.mpr
  intro g hg
  simp only [List.mem_reverse, List.mem_range] at hg
  by_cases h2 : 2 ≤ g
  · have hlt : g - 1 < N.length := by omega
    rw [getD_append_left _ hlt]
    simp only [Bool.and_eq_false_iff, Bool.and_eq_true, decide_eq_true_eq, beq_iff_eq,
      Bool.and_eq_false_imp, decide_eq_false_iff_not]
    intro h
    exact absurd h.1.2 (hs _ (getD_mem hlt ' '))
  · simp [h2]

lemma crossTail1_refDot_eq (N rel : List Char) :
    crossTail1 N rel ('"' :: '.' :: '/' :: (N ++ ['"'])) =
      some (4 + N.length, '"' :: (rel ++ ['"'])) := by
  have hq : qAfter N (N ++ ['"']) = true := qAfter_self N '"' [] (by decide)
  simp [crossTail1, hq, isQ]

lemma crossTail2_refUp_eq (N rel : List Char) :
    crossTail2 N rel ('"' :: '.' :: '.' :: '/' :: (N ++ ['"'])) =
      some (5 + N.length, '"' :: (rel ++ ['"'])) := by
  have hq : qAfter N (N ++ ['"']) = true := qAfter_self N '"' [] (by decide)
  simp [crossTail2, hq, isQ]

lemma crossTail3_refDot_eq (N rel : List Char)
    (hw : ∀ c ∈ N, wordSlash c = true) (hs : ∀ c ∈ N, ¬ c = '/') :
    crossTail3 N rel ('"' :: '.' :: '/' :: (N ++ ['"'])) =
      some (4 + N.length, '"' :: (rel ++ ['"'])) := by
  have hg : groupLen N (N ++ ['"']) = none := groupLen_none_selfQ N [] hw hs
  have hq : qAfter N (N ++ ['"']) = true := qAfter_self N '"' [] (by decide)
  simp [crossTail3, hg, hq, isQ]

lemma subst_refDot_match1 (N rel : List Char) :
    subst (crossTail1 N rel) (refDot N) = refOf rel := by
  have hm : matchFrom (crossTail1 N rel)
      ('f' :: 'r' :: 'o' :: 'm' :: ' ' :: ('"' :: '.' :: '/' :: (N ++ ['"']))) =
      some (4 + N.length, '"' :: (rel ++ ['"'])) := by
    rw [matchFrom_eq_tm]; exact crossTail1_refDot_eq N rel
  show subst _ ('f' :: 'r' :: 'o' :: 'm' :: ' ' :: '"' :: '.' :: '/' :: (N ++ ['"'])) = _
  rw [subst_cons_match hm, List.drop_eq_nil_of_le (by simp; omega)]
  simp [refOf, subst_nil]

lemma subst_refUp_match2 (N rel : List Char) :
    subst (crossTail2 N rel) (refUp N) = refOf rel := by
  have hm : matchFrom (crossTail2 N rel)
      ('f' :: 'r' :: 'o' :: 'm' :: ' ' :: ('"' :: '.' :: '.' :: '/' :: (N ++ ['"']))) =
      some (5 + N.length, '"' :: (rel ++ ['"'])) := by
    rw [matchFrom_eq_tm]; exact crossTail2_refUp_eq N rel
  show subst _ ('f' :: 'r' :: 'o' :: 'm' :: ' ' :: '"' :: '.' :: '.' :: '/' :: (N ++ ['"'])) = _
  rw [subst_cons_match hm, List.drop_eq_nil_of_le (by simp; omega)]
  simp [refOf, subst_nil]

lemma subst_refDot_match3 (N rel : List Char)
    (hw : ∀ c ∈ N, wordSlash c = true) (hs : ∀ c ∈ N, ¬ c = '/') :
    subst (crossTail3 N rel) (refDot N) = refOf rel := by
  have hm : matchFrom (crossTail3 N rel)
      ('f' :: 'r' :: 'o' :: 'm' :: ' ' :: ('"' :: '.' :: '/' :: (N ++ ['"']))) =
      some (4 + N.length, '"' :: (rel ++ ['"'])) := by
    rw [matchFrom_eq_tm]; exact crossTail3_refDot_eq N rel hw hs
  show subst _ ('f' :: 'r' :: 'o' :: 'm' :: ' ' :: '"' :: '.' :: '/' :: (N ++ ['"'])) = _
  rw [subst_cons_match hm, List.drop_eq_nil_of_le (by simp; omega)]
  simp [refOf, subst_nil]

lemma hasMatch1_refDot (N rel : List Char) :
    hasMatch (crossTail1 N rel) (refDot N) = true :=
  hasMatch_of_head (p := (4 + N.length, '"' :: (rel ++ ['"']))) (by
    show matchFrom _ ('f' :: 'r' :: 'o' :: 'm' :: ' ' :: ('"' :: '.' :: '/' :: (N ++ ['"']))) = _
    rw [matchFrom_eq_tm]; exact crossTail1_refDot_eq N rel)

lemma hasMatch2_refUp (N rel : List Char) :
    hasMatch (crossTail2 N rel) (refUp N) = true :=
  hasMatch_of_head (p := (5 + N.length, '"' :: (rel ++ ['"']))) (by
    show matchFrom _ ('f' :: 'r' :: 'o' :: 'm' :: ' ' :: ('"' :: '.' :: '.' :: '/' :: (N ++ ['"']))) = _
    rw [matchFrom_eq_tm]; exact crossTail2_refUp_eq N rel)

lemma hasMatch3_refDot (N rel : List Char)
    (hw : ∀ c ∈ N, wordSlash c = true) (hs : ∀ c ∈ N, ¬ c = '/') :
    hasMatch (crossTail3 N rel) (refDot N) = true :=
  hasMatch_of_head (p := (4 + N.length, '"' :: (rel ++ ['"']))) (by
    show matchFrom _ ('f' :: 'r' :: 'o' :: 'm' :: ' ' :: ('"' :: '.' :: '/' :: (N ++ ['"']))) = _
    rw [matchFrom_eq_tm]; exact crossTail3_refDot_eq N rel hw hs)

lemma hasMatch2_refDot (N rel : List Char) (h3 : noFromTails (N ++ ['"'])) :
    hasMatch (crossTail2 N rel) (refDot N) = false := by
  show hasMatch _ ('f' :: 'r' :: 'o' :: 'm' :: ' ' :: '"' :: ('.' :: '/' :: (N ++ ['"']))) = false
  rw [hasMatch_fromQ (by decide), crossTail2_none_dslash, hasMatch_dotSlash h3]
  rfl

lemma hasMatch1_refUp (N rel : List Char) (h3 : noFromTails (N ++ ['"'])) :
    hasMatch (crossTail1 N rel) (refUp N) = false := by
  show hasMatch _ ('f' :: 'r' :: 'o' :: 'm' :: ' ' :: '"' :: ('.' :: '.' :: '/' :: (N ++ ['"']))) =
    false
  rw [hasMatch_fromQ (by decide), crossTail1_none_ddot, hasMatch_cons, hasMatch_cons,
    hasMatch_cons, matchFrom_none_head _ (by decide), matchFrom_none_head _ (by decide),
    matchFrom_none_head _ (by decide), hasMatch_false_of_noFrom h3]
  rfl

lemma hasMatch_refHops {tm : List Char → Option (Nat × List Char)} (d : Nat)
    (loc : List Char) (h4 : noFromTails (loc ++ ['"']))
    (h0 : tm ('"' :: (hopsL d ++ (loc ++ ['"']))) = none) :
    hasMatch tm ('f' :: 'r' :: 'o' :: 'm' :: ' ' :: '"' :: (hopsL d ++ (loc ++ ['"']))) =
      false := by
  rw [hasMatch_fromQ (by decide), h0, hasMatch_hops, hasMatch_false_of_noFrom h4]
  rfl

lemma crossTail1_none_hops (N rel : List Char) {d : Nat} (hd : 1 ≤ d) (Z : List Char) :
    crossTail1 N rel ('"' :: (hopsL d ++ Z)) = none := by
  obtain ⟨e, rfl⟩ : ∃ e, d = e + 1 := ⟨d - 1, by omega⟩
  exact crossTail1_none_ddot N rel '"' ('/' :: (hopsL e ++ Z))

lemma crossTail3_none_hops (N rel : List Char) {d : Nat} (hd : 1 ≤ d) (Z : List Char) :
    crossTail3 N rel ('"' :: (hopsL d ++ Z)) = none := by
  obtain ⟨e, rfl⟩ : ∃ e, d = e + 1 := ⟨d - 1, by omega⟩
  exact crossTail3_none_ddot N rel '"' ('/' :: (hopsL e ++ Z))

lemma crossTail2_none_hops (n₀ : Char) (N' rel : List Char) {d : Nat} (hd : 1 ≤ d)
    (l₀ : Char) (L' : List Char) (h1 : (n₀ == '.') = false) (h2 : (n₀ == l₀) = false) :
    crossTail2 (n₀ :: N') rel ('"' :: (hopsL d ++ ((l₀ :: L') ++ ['"']))) = none := by
  obtain ⟨e, rfl⟩ : ∃ e, d = e + 1 := ⟨d - 1, by omega⟩
  show crossTail2 (n₀ :: N') rel
    ('"' :: '.' :: '.' :: '/' :: (hopsL e ++ ((l₀ :: L') ++ ['"']))) = none
  apply crossTail2_none_qAfter
  cases e with
  | zero => exact qAfter_false_head n₀ N' l₀ (L' ++ ['"']) h2
  | succ i => exact qAfter_false_head n₀ N' '.' _ h1

lemma refOf_dotSlash (N : List Char) : refOf ('.' :: '/' :: N) = refDot N := by
  simp [refOf, refDot]

lemma refOf_hops (d : Nat) (loc : List Char) :
    refOf (hopsL d ++ loc) =
      'f' :: 'r' :: 'o' :: 'm' :: ' ' :: '"' :: (hopsL d ++ (loc ++ ['"'])) := by
  simp [refOf, fromSp]





/-- Every entry of the relocation table satisfies the side conditions. -/
lemma relocList_sysOk : ∀ e ∈ relocList, sysOk e.1 e.2 := by decide

/-- One relocation entry's inner loop on the reference `from "./N"`:
it is rewritten to `from "<rel>"` with `rel` the code's relative path. -/
lemma applySystem_refDot (A : List Char) (d : Nat) (hd : 1 ≤ d) (N loc : List Char)
    (hok : sysOk N loc) :
    applySystem A d N loc (refDot N) = refOf (relPathFor A d N loc) := by
  obtain ⟨hw, hs, h3, h4, hN0, hl0, hNd, hld, hNl⟩ := hok
  show applyPat _ (applyPat _ (applyPat _ (refDot N))) = _
  rw [applyPat_pos (hasMatch1_refDot N _), subst_refDot_match1 N _]
  by_cases hAB : (A == loc.takeWhile fun c => !(c == '/')) = true
  · have hrel : relPathFor A d N loc = '.' :: '/' :: N := by
      unfold relPathFor
      simp only [hAB, if_true]
    rw [hrel, refOf_dotSlash, applyPat_neg (hasMatch2_refDot N _ h3),
      applyPat_pos (hasMatch3_refDot N _ hw hs), subst_refDot_match3 N _ hw hs,
      refOf_dotSlash]
  · have hAB' : (A == loc.takeWhile fun c => !(c == '/')) = false := by
      simpa using hAB
    have hrel : relPathFor A d N loc = hopsL d ++ loc := by
      unfold relPathFor
      simp [hAB']
    obtain ⟨n₀, N', rfl⟩ : ∃ a l, N = a :: l := by
      cases N with
      | nil => exact absurd rfl hN0
      | cons a l => exact ⟨a, l, rfl⟩
    obtain ⟨l₀, L', rfl⟩ : ∃ a l, loc = a :: l := by
      cases loc with
      | nil => exact absurd rfl hl0
      | cons a l => exact ⟨a, l, rfl⟩
    rw [hrel, refOf_hops,
      applyPat_neg (hasMatch_refHops d _ h4
        (crossTail2_none_hops n₀ N' _ hd l₀ L'
          (beq_eq_false_iff_ne.mpr hNd) (beq_eq_false_iff_ne.mpr hNl))),
      applyPat_neg (hasMatch_refHops d _ h4 (crossTail3_none_hops (n₀ :: N') _ hd _))]

/-- One relocation entry's inner loop on the reference `from "../N"`:
it is rewritten to `from "<rel>"` with `rel` the code's relative path. -/
lemma applySystem_refUp (A : List Char) (d : Nat) (hd : 1 ≤ d) (N loc : List Char)
    (hok : sysOk N loc) :
    applySystem A d N loc (refUp N) = refOf (relPathFor A d N loc) := by
  obtain ⟨hw, hs, h3, h4, hN0, hl0, hNd, hld, hNl⟩ := hok
  show applyPat _ (applyPat _ (applyPat _ (refUp N))) = _
  rw [applyPat_neg (hasMatch1_refUp N _ h3), applyPat_pos (hasMatch2_refUp N _),
    subst_refUp_match2 N _]
  by_cases hAB : (A == loc.takeWhile fun c => !(c == '/')) = true
  · have hrel : relPathFor A d N loc = '.' :: '/' :: N := by
      unfold relPathFor
      simp only [hAB, if_true]
    rw [hrel, refOf_dotSlash,
      applyPat_pos (hasMatch3_refDot N _ hw hs), subst_refDot_match3 N _ hw hs,
      refOf_dotSlash]
  · have hAB' : (A == loc.takeWhile fun c => !(c == '/')) = false := by
      simpa using hAB
    have hrel : relPathFor A d N loc = hopsL d ++ loc := by
      unfold relPathFor
      simp [hAB']
    obtain ⟨n₀, N', rfl⟩ : ∃ a l, N = a :: l := by
      cases N with
      | nil => exact absurd rfl hN0
      | cons a l => exact ⟨a, l, rfl⟩
    obtain ⟨l₀, L', rfl⟩ : ∃ a l, loc = a :: l := by
      cases loc with
      | nil => exact absurd rfl hl0
      | cons a l => exact ⟨a, l, rfl⟩
    rw [hrel, refOf_hops,
      applyPat_neg (hasMatch_refHops d _ h4 (crossTail3_none_hops (n₀ :: N') _ hd _))]

/-! Identity of the rewriters on contents with no matching pattern, and
structure of the relocation targets. -/

lemma applyPasses_id {ps : List (List Char → Option (Nat × List Char))}
    {content : List Char} (h : ∀ p ∈ ps, hasMatch p content = false) :
    applyPasses ps content = content := by
  induction ps with
  | nil => rfl
  | cons p ps ih =>
    rw [applyPasses_cons, subst_id_of_not_hasMatch (h p (List.mem_cons_self p ps)),
      ih fun p' hp' => h p' (List.mem_cons_of_mem p hp')]

lemma applySystem_id {folder : List Char} {depth : Nat} {N loc content : List Char}
    (h1 : hasMatch (crossTail1 N (relPathFor folder depth N loc)) content = false)
    (h2 : hasMatch (crossTail2 N (relPathFor folder depth N loc)) content = false)
    (h3 : hasMatch (crossTail3 N (relPathFor folder depth N loc)) content = false) :
    applySystem folder depth N loc content = content := by
  show applyPat _ (applyPat _ (applyPat _ content)) = content
  rw [applyPat_neg h1, applyPat_neg h2, applyPat_neg h3]

lemma transformOnce_id {folder : List Char} {depth : Nat} {content : List Char}
    (h : matchesAny folder depth content = false) :
    transformOnce folder depth content = content := by
  rw [matchesAny, Bool.or_eq_false_iff, List.any_eq_false, List.any_eq_false] at h
  simp only [Bool.not_eq_true] at h
  obtain ⟨hext, hcross⟩ := h
  have e1 : fix_external_imports depth content = content := applyPasses_id hext
  have key : ∀ l : List (List Char × List Char), (∀ e ∈ l,
      (hasMatch (crossTail1 e.1 (relPathFor folder depth e.1 e.2)) content ||
       hasMatch (crossTail2 e.1 (relPathFor folder depth e.1 e.2)) content ||
       hasMatch (crossTail3 e.1 (relPathFor folder depth e.1 e.2)) content) = false) →
      l.foldl (fun c e => applySystem folder depth e.1 e.2 c) content = content := by
    intro l
    induction l with
    | nil => intro _; rfl
    | cons e l ih =>
      intro hl
      have he := hl e (List.mem_cons_self e l)
      simp only [Bool.or_eq_false_iff] at he
      rw [List.foldl_cons, applySystem_id he.1.1 he.1.2 he.2,
        ih fun e' he' => hl e' (List.mem_cons_of_mem e he')]
  unfold transformOnce fix_cross_system_imports
  rw [e1, key relocList hcross]

lemma takeWhile_append_slash (B : List Char) (h : ∀ c ∈ B, ¬ c = '/')
    (rest : List Char) :
    (B ++ '/' :: rest).takeWhile (fun c => !(c == '/')) = B := by
  induction B with
  | nil => simp [List.takeWhile]
  | cons c cs ih =>
    rw [List.cons_append, List.takeWhile_cons]
    have hc : (c == '/') = false := beq_eq_false_iff_ne.mpr (h c (List.mem_cons_self c cs))
    rw [hc]
    simp only [Bool.not_false, if_true]
    rw [ih fun a ha => h a (List.mem_cons_of_mem c ha)]

/-- Every relocation target decomposes as top-level subfolder, slash,
nested path and identifier, the subfolder being slash-free. -/
lemma relocList_decomp : ∀ e ∈ relocList,
    e.2 = folderOf e.2 ++ '/' :: (nestedOf e.1 e.2 ++ e.1) ∧
    ∀ c ∈ folderOf e.2, ¬ c = '/' := by decide

/-! Claim theorems. -/

set_option maxRecDepth 1000000 in
/-- C1: the claim asserts that applying the per-file transformation
(external rewriter at depth `d`, then cross rewriter with folder `A` and
depth `d`) twice always equals applying it once, so a second run of the
tool modifies zero files. The code violates this: for content
`from "./WorldResourceSystem"` in folder `agents` at depth 2, the first
pass yields `from "../../world/WorldResourceSystem"`, which the external
`world` rule re-matches on the second pass; `fix_file` then counts the
already-fixed file as modified again. -/
theorem C1_idempotence_violated :
    transformOnce fAgents 2 (transformOnce fAgents 2 (refDot nWorldResourceSystem)) ≠
      transformOnce fAgents 2 (refDot nWorldResourceSystem) ∧
    (fix_file [fAgents, ['a', 'i'], ['X', '.', 't', 's']]
      (transformOnce fAgents 2 (refDot nWorldResourceSystem))).2 = 1 := by
  refine ⟨by decide, by decide⟩

set_option maxRecDepth 1000000 in
/-- C2: the claim asserts that a reference produced by the cross-reference
rewriter is never matched and re-rewritten by any external-reference
pattern. The code violates this: at depth 2 the cross rewriter writes
`from "../../world/WorldResourceSystem"` for a relocated identifier, and
the external `world` rule (baseline 2) matches exactly that text and
prepends two more parent hops. -/
theorem C2_double_rewrite :
    fix_cross_system_imports fAgents 2 (refDot nWorldResourceSystem) =
      refOf (hopsL 2 ++ (fWorld ++ '/' :: nWorldResourceSystem)) ∧
    fix_external_imports 2 (refOf (hopsL 2 ++ (fWorld ++ '/' :: nWorldResourceSystem))) =
      refOf (hopsL 4 ++ (fWorld ++ '/' :: nWorldResourceSystem)) := by
  refine ⟨by decide, by decide⟩

set_option maxRecDepth 1000000 in
/-- C3 counterexample: `from "../core/TimeSystem"` has its opening quote
followed by exactly one `../` and the configured root name `core`
(baseline 1), yet at depth 1 the external rewriter leaves it unchanged,
with one leading hop instead of the claimed `1 + 1 = 2`. -/
theorem C3_counterexample :
    fix_external_imports 1 (refOf (hopsL 1 ++ (coR ++ nTimeSystem))) =
      refOf (hopsL 1 ++ (coR ++ nTimeSystem)) ∧
    leadHops (hopsL 1 ++ (coR ++ nTimeSystem)) = 1 := by
  refine ⟨by decide, by decide⟩

set_option maxRecDepth 1000000 in
/-- C3 (amended): for the `types`, `world`, `shared`, `infrastructure` and
`config` rules, a double-quoted reference whose opening quote is followed
by exactly the baseline number of `../` segments and the root name is
rewritten to exactly `baseline + depth` leading segments, for every depth
at least 1 and every residue text; for the `core` rule the same holds
provided the text after `core/` does not begin with one of the three
excluded identifiers. The claim's depth-1 `types` example holds. -/
theorem C3_depth_correctness_amended :
    (∀ br ∈ extRules, ∀ d : Nat, 1 ≤ d → ∀ X : List Char,
      fix_external_imports d (mkExt '"' br.1 br.2 X) =
        mkExt '"' (br.1 + d) br.2 (fix_external_imports d X)) ∧
    (∀ br ∈ extRules, ∀ (k : Nat) (X : List Char),
      leadHops (hopsL k ++ (br.2 ++ X)) = k) ∧
    (∀ d : Nat, 1 ≤ d → ∀ X : List Char, lookaheadBlocked X = false →
      fix_external_imports d (mkExt '"' 1 coR X) =
        mkExt '"' (1 + d) coR (fix_external_imports d X)) ∧
    fix_external_imports 1 (refOf (hopsL 2 ++ (tyR ++ ['T', 'h', 'i', 'n', 'g']))) =
      refOf (hopsL 3 ++ (tyR ++ ['T', 'h', 'i', 'n', 'g'])) := by
  refine ⟨?_, ?_, ?_, by decide⟩
  · intro br hbr d hd X
    fin_cases hbr
    · rw [Nat.add_comm 2 d]; exact ext_rw_ty d '"' (by decide) X
    · rw [Nat.add_comm 2 d]; exact ext_rw_wo d '"' (by decide) X
    · rw [Nat.add_comm 3 d]; exact ext_rw_sh d '"' (by decide) X
    · rw [Nat.add_comm 3 d]; exact ext_rw_in d '"' (by decide) X
    · rw [Nat.add_comm 3 d]; exact ext_rw_cf d '"' (by decide) X
  · intro br hbr k X
    fin_cases hbr
    · simp only [tyR, List.cons_append]; exact leadHops_hops k 't' _ (by decide)
    · simp only [woR, List.cons_append]; exact leadHops_hops k 'w' _ (by decide)
    · simp only [shR, List.cons_append]; exact leadHops_hops k 's' _ (by decide)
    · simp only [inR, List.cons_append]; exact leadHops_hops k 'i' _ (by decide)
    · simp only [cfR, List.cons_append]; exact leadHops_hops k 'c' _ (by decide)
  · intro d hd X hX
    rw [Nat.add_comm 1 d]
    exact ext_rw_co d '"' (by decide) X hX

/-- Witness for C3 (amended) at the `types` rule, depth 1. -/
theorem C3_depth_correctness_amended_witness :
    fix_external_imports 1 (mkExt '"' 2 tyR (['T', 'h'] ++ ['"'])) =
      mkExt '"' (2 + 1) tyR (fix_external_imports 1 (['T', 'h'] ++ ['"'])) :=
  C3_depth_correctness_amended.1 (2, tyR) (by decide) 1 (by decide) (['T', 'h'] ++ ['"'])

set_option maxRecDepth 1000000 in
/-- C4: the cross-reference resolution formula. For every relocation entry
with identifier `N` and target `loc`, the code's relative path equals
`./N` when the referencing folder equals the target's top-level subfolder
`B = folderOf loc`, and `('../' * depth) ++ B ++ '/' ++ P ++ N` otherwise
(`P` the possibly empty nested path ending in `/`); a reference
`from "./N"` or `from "../N"` processed by the entry's three patterns is
rewritten to `from "<that path>"`; and the claim's example holds:
`from "../EconomySystem"` in `agents` at depth 1 becomes
`from "../economy/EconomySystem"`. -/
theorem C4_cross_resolution :
    (∀ e ∈ relocList, ∀ (A : List Char) (d : Nat),
      relPathFor A d e.1 e.2 =
        if A = folderOf e.2 then '.' :: '/' :: e.1
        else hopsL d ++ (folderOf e.2 ++ '/' :: (nestedOf e.1 e.2 ++ e.1))) ∧
    (∀ e ∈ relocList, ∀ (A : List Char) (d : Nat), 1 ≤ d →
      applySystem A d e.1 e.2 (refDot e.1) = refOf (relPathFor A d e.1 e.2)) ∧
    (∀ e ∈ relocList, ∀ (A : List Char) (d : Nat), 1 ≤ d →
      applySystem A d e.1 e.2 (refUp e.1) = refOf (relPathFor A d e.1 e.2)) ∧
    fix_cross_system_imports fAgents 1 (refUp nEconomySystem) =
      refOf (hopsL 1 ++ (fEconomy ++ '/' :: nEconomySystem)) := by
  refine ⟨?_, ?_, ?_, by decide⟩
  · intro e he A d
    obtain ⟨hdec, _⟩ := relocList_decomp e he
    by_cases hA : A = folderOf e.2
    · subst hA
      simp [relPathFor, folderOf]
    · have hA' : (A == e.2.takeWhile fun c => !(c == '/')) = false :=
        beq_eq_false_iff_ne.mpr (by simpa [folderOf] using hA)
      simp only [relPathFor, hA', Bool.false_eq_true, if_false, if_neg hA]
      rw [← hdec]
  · intro e he A d hd
    exact applySystem_refDot A d hd e.1 e.2 (relocList_sysOk e he)
  · intro e he A d hd
    exact applySystem_refUp A d hd e.1 e.2 (relocList_sysOk e he)

/-- Witness for C4 at the `EconomySystem` entry, folder `agents`, depth 1. -/
theorem C4_cross_resolution_witness :
    applySystem fAgents 1 nEconomySystem (fEconomy ++ '/' :: nEconomySystem)
      (refUp nEconomySystem) =
      refOf (relPathFor fAgents 1 nEconomySystem (fEconomy ++ '/' :: nEconomySystem)) :=
  C4_cross_resolution.2.2.1 (nEconomySystem, fEconomy ++ '/' :: nEconomySystem)
    (by decide) fAgents 1 (by decide)

set_option maxRecDepth 1000000 in
/-- C5: for a relocated identifier whose target has a nonempty nested path,
a referencing file whose top-level subfolder equals the target's produces
the same-directory path `./N`, silently omitting the nested part, and the
rewriter takes no failure branch (it is a total function); the claim's
`NeedsSystem` scenario evaluates accordingly. -/
theorem C5_same_folder_shortcut :
    (∀ e ∈ relocList, nestedOf e.1 e.2 ≠ [] → ∀ d : Nat,
      relPathFor (folderOf e.2) d e.1 e.2 = '.' :: '/' :: e.1) ∧
    fix_cross_system_imports fAgents 1
      (refOf ('.' :: '/' :: (dNeeds ++ nNeedsSystem))) = refDot nNeedsSystem := by
  refine ⟨?_, by decide⟩
  intro e _ _ d
  simp [relPathFor, folderOf]

/-- Witness for C5 at the `NeedsSystem` entry, depth 1. -/
theorem C5_same_folder_shortcut_witness :
    relPathFor (folderOf (fAgents ++ '/' :: (dNeeds ++ nNeedsSystem))) 1 nNeedsSystem
      (fAgents ++ '/' :: (dNeeds ++ nNeedsSystem)) = '.' :: '/' :: nNeedsSystem :=
  C5_same_folder_shortcut.1 (nNeedsSystem, fAgents ++ '/' :: (dNeeds ++ nNeedsSystem))
    (by decide) (by decide) 1

/-- C6: for every eligible file (at least two path components), `fix_file`
applies the external then the cross rewriter, writes back exactly when the
result differs from the original (string equality) returning 1, returns
the untouched content with 0 otherwise, and a content matching no
configured pattern is left byte-for-byte identical with count 0. -/
theorem C6_write_iff_changed :
    ∀ (parts : List (List Char)) (content : List Char), 2 ≤ parts.length →
      (transformOnce (parts.headD []) (parts.length - 1) content ≠ content →
        fix_file parts content =
          (transformOnce (parts.headD []) (parts.length - 1) content, 1)) ∧
      (transformOnce (parts.headD []) (parts.length - 1) content = content →
        fix_file parts content = (content, 0)) ∧
      (matchesAny (parts.headD []) (parts.length - 1) content = false →
        fix_file parts content = (content, 0)) := by
  intro parts content hlen
  have hfix : fix_file parts content =
      (if transformOnce (parts.headD []) (parts.length - 1) content == content
        then (content, 0)
        else (transformOnce (parts.headD []) (parts.length - 1) content, 1)) := by
    unfold fix_file
    rw [if_neg (by omega)]
    rfl
  have same : transformOnce (parts.headD []) (parts.length - 1) content = content →
      fix_file parts content = (content, 0) := by
    intro heq
    rw [hfix, show (transformOnce (parts.headD []) (parts.length - 1) content ==
      content) = true from by rw [heq]; exact beq_self_eq_true content]
    simp
  refine ⟨?_, same, ?_⟩
  · intro hne
    rw [hfix, show (transformOnce (parts.headD []) (parts.length - 1) content ==
      content) = false from beq_eq_false_iff_ne.mpr hne]
    simp
  · intro hm
    exact same (transformOnce_id hm)

/-- Witness for C6: a two-component path with non-matching content. -/
theorem C6_write_iff_changed_witness :
    fix_file [fAgents, ['X', '.', 't', 's']] ['h', 'i'] = (['h', 'i'], 0) :=
  (C6_write_iff_changed [fAgents, ['X', '.', 't', 's']] ['h', 'i'] (by decide)).2.2
    (by decide)

/-- C7: `get_depth` returns the number of directory levels between the
root and the file, excluding the filename: for a path of `k` directories
followed by the filename it returns `k`; a file directly under the root
yields 0 and a file inside one subfolder yields 1. It is a total pure
function on path components. -/
theorem C7_get_depth :
    (∀ (dirs : List (List Char)) (name : List Char),
      get_depth (dirs ++ [name]) = dirs.length) ∧
    (∀ name : List Char, get_depth [name] = 0) ∧
    (∀ sub name : List Char, get_depth [sub, name] = 1) := by
  refine ⟨?_, ?_, ?_⟩ <;> intros <;> simp [get_depth]

/-- C8: a file whose path relative to the root has a single component
(depth 0) is returned unchanged with count 0 by `fix_file`, whatever its
content, and no per-file log line is produced for it. -/
theorem C8_root_file_skipped :
    ∀ name content : List Char,
      fix_file [name] content = (content, 0) ∧ logsFile [name] content = false := by
  intro name content
  have h : fix_file [name] content = (content, 0) := by
    unfold fix_file
    rw [if_pos (by simp)]
  exact ⟨h, by simp [logsFile, h]⟩

set_option maxRecDepth 1000000 in
/-- C9 counterexample: `from "../core/TimeSystemUtils"` names an identifier
that is none of the three relocated ones, yet the external rewriter leaves
it unchanged at depth 1 (the lookahead only inspects a prefix), refuting
the claimed `exactly when`; and `from "../core/TimeSystem"` is left
unchanged by the cross-reference rewriter as well, refuting the claim that
those references are handled there. -/
theorem C9_counterexample :
    fix_external_imports 1
        (refOf (hopsL 1 ++ (coR ++ (nTimeSystem ++ ['U', 't', 'i', 'l', 's'])))) =
      refOf (hopsL 1 ++ (coR ++ (nTimeSystem ++ ['U', 't', 'i', 'l', 's']))) ∧
    (nTimeSystem ++ ['U', 't', 'i', 'l', 's']) ≠ nTimeSystem ∧
    (nTimeSystem ++ ['U', 't', 'i', 'l', 's']) ≠ nChunkLoadingSystem ∧
    (nTimeSystem ++ ['U', 't', 'i', 'l', 's']) ≠ nTerrainSystem ∧
    fix_cross_system_imports fAgents 1 (refOf (hopsL 1 ++ (coR ++ nTimeSystem))) =
      refOf (hopsL 1 ++ (coR ++ nTimeSystem)) := by
  refine ⟨by decide, by decide, by decide, by decide, by decide⟩

/-- C9 (amended): a reference `from "../core/X"` is rewritten by the
external rewriter to `depth + 1` leading hops exactly when the text
following `core/` does not begin with `TimeSystem`, `ChunkLoadingSystem`
or `TerrainSystem` (the negative lookahead checks a prefix, not the whole
identifier); when it does begin with one of them, the reference is left
unchanged by the external rewriter (its hop count stays 1). -/
theorem C9_core_lookahead_amended :
    (∀ d : Nat, 1 ≤ d → ∀ (q : Char) (X : List Char), isQ q = true →
      lookaheadBlocked X = false →
      fix_external_imports d (mkExt q 1 coR X) =
        mkExt '"' (d + 1) coR (fix_external_imports d X)) ∧
    (∀ d : Nat, 1 ≤ d → ∀ (q : Char) (X : List Char), isQ q = true →
      lookaheadBlocked X = true →
      fix_external_imports d (mkExt q 1 coR X) =
        mkExt q 1 coR (fix_external_imports d X)) ∧
    (∀ (k : Nat) (Y : List Char), leadHops (hopsL k ++ (coR ++ Y)) = k) := by
  refine ⟨?_, ?_, ?_⟩
  · intro d _ q X hq hX
    exact ext_rw_co d q hq X hX
  · intro d _ q X hq hX
    exact ext_rw_co_blocked d q hq X hX
  · intro k Y
    simp only [coR, List.cons_append]
    exact leadHops_hops k 'c' _ (by decide)

/-- Witness for C9 (amended): an unexcluded core identifier at depth 1. -/
theorem C9_core_lookahead_amended_witness :
    fix_external_imports 1 (mkExt '"' 1 coR ['G']) =
      mkExt '"' (1 + 1) coR (fix_external_imports 1 ['G']) :=
  C9_core_lookahead_amended.1 1 (by decide) '"' ['G'] (by decide) (by decide)

set_option maxRecDepth 1000000 in
/-- C10: a single-quoted external reference such as `from '../../types/X'`
is rewritten by the external rewriter to a replacement opening with a
double quote, the original closing single quote surviving outside the
match, so the output mixes quotes; a double-quoted input is rewritten
quote-consistently. -/
theorem C10_quote_mangling :
    (∀ d : Nat, 1 ≤ d → ∀ X : List Char,
      fix_external_imports d (mkExt '\'' 2 tyR X) =
        mkExt '"' (d + 2) tyR (fix_external_imports d X)) ∧
    fix_external_imports 1 (mkExt '\'' 2 tyR ['X', '\'']) =
      mkExt '"' 3 tyR ['X', '\''] ∧
    fix_external_imports 1 (refOf (hopsL 2 ++ (tyR ++ ['X']))) =
      refOf (hopsL 3 ++ (tyR ++ ['X'])) := by
  refine ⟨?_, by decide, by decide⟩
  intro d _ X
  exact ext_rw_ty d '\'' (by decide) X

/-- Witness for C10: the single-quoted `types` rewrite at depth 1. -/
theorem C10_quote_mangling_witness :
    fix_external_imports 1 (mkExt '\'' 2 tyR ['Z']) =
      mkExt '"' (1 + 2) tyR (fix_external_imports 1 ['Z']) :=
  C10_quote_mangling.1 1 (by decide) ['Z']

end ImportFix
